import Mathlib

/-!
Shallow embedding of the `bee` HTTP parser (`src/http/parser.rs` and
`src/http/mod.rs`) in Lean 4, together with theorems checking the
natural-language specification's claims against the code.

Conventions of the embedding:
* Rust `uint` (the 64-bit `usize` of the 2014-era compiler) is modelled as
  `Nat`; arithmetic that can wrap in Rust (`*`, `+` on accumulators, and the
  unchecked `byte - '0'`) goes through `wrap` / `usub`, which reduce modulo
  `2 ^ 64`.  Loop counters (`read`, `index`) that advance by at most one per
  input byte cannot wrap on any feasible Rust slice and are plain `Nat`.
* Input bytes are `Nat` code points (every real input byte is `< 256`).
* The `MessageHandler` callbacks are modelled as an event trace; the one
  callback with a return value, `on_headers_complete`, is modelled by the
  boolean parameter `hr` supplied to `parse` (the code calls it on a caller
  handler; the trace records that the call happened).
* `unimplemented!()`, `unreachable!()` and out-of-bounds `char_at` (inside
  `HttpMethod::hit`) are modelled by the `panicked` outcome.
* The `'chunk: loop` of the source can genuinely fail to terminate, so the
  chunk phase carries fuel and the whole `parse` returns `Option Outcome`;
  `none` means the fuel ran out (used to exhibit the divergence).
-/

namespace Bee

/-- `uint::MAX` of the 64-bit target, the sentinel for "length unknown". -/
def UINT_MAX : Nat := 2 ^ 64 - 1

/-- Wrapping 64-bit arithmetic result. -/
def wrap (n : Nat) : Nat := n % 2 ^ 64

/-- Wrapping 64-bit subtraction `a - b` (used for the unchecked `byte - '0'`). -/
def usub (a b : Nat) : Nat := (a + 2 ^ 64 - b % 2 ^ 64) % 2 ^ 64

/-- ASCII lowercasing, modelling `std::char::to_lowercase` on input bytes.
The source lowercases `byte as char`; for bytes above `0x7f` (Latin-1
letters) Rust's mapping stays above `0x7f`, and every comparison made with
the lowercased character in the parser is against an ASCII character, so
restricting the mapping to ASCII is observationally equivalent. -/
def lower (b : Nat) : Nat := if 65 ≤ b ∧ b ≤ 90 then b + 32 else b

/-- `is_token` from the source (the permissive token-character test). -/
def isToken (c : Nat) : Bool :=
  (94 ≤ c && c ≤ 122) || (65 ≤ c && c ≤ 90) || (45 ≤ c && c ≤ 46) ||
  (35 ≤ c && c ≤ 92) || (42 ≤ c && c ≤ 43) || (48 ≤ c && c ≤ 57) ||
  c == 33 || c == 124 || c == 126

/-- `unhex` from the source: hex digit value, `UINT_MAX` otherwise. -/
def unhex (b : Nat) : Nat :=
  let c := lower b
  if 48 ≤ c ∧ c ≤ 57 then c - 48
  else if 97 ≤ c ∧ c ≤ 102 then c - 87
  else UINT_MAX

/-- `data.slice(s, e)` of a Rust byte slice. -/
def slice (l : List Nat) (s e : Nat) : List Nat := (l.drop s).take (e - s)

/-- ASCII bytes of a string literal (for concrete test inputs). -/
def strBytes (s : String) : List Nat := s.data.map Char.toNat

/-- `ParseType` from the source. -/
inductive ParseType where
  | ParseRequest
  | ParseResponse
  | ParseBoth
deriving DecidableEq, Repr

/-- `ParserState` from the source. -/
inductive ParserState where
  | Dead
  | StartReq
  | StartRes
  | StartReqOrRes
  | ReqMethod
  | ReqUrl
  | ReqHttpStart
  | ReqHttpMajor
  | ReqHttpMinor
  | ReqLineAlmostDone
  | ResHttpStart
  | ResHttpMajor
  | ResHttpMinor
  | ResStatusCodeStart
  | ResStatusCode
  | ResStatus
  | ResLineAlmostDone
  | HeaderFieldStart
  | HeaderField
  | HeaderValueDiscardWS
  | HeaderValueDiscardWSAlmostDone
  | HeaderValueDiscardLWS
  | HeaderValueStart
  | HeaderValue
  | HeaderAlmostDone
  | HeadersAlmostDone
  | BodyIdentity
  | BodyIdentityEOF
  | ChunkSize
  | ChunkSizeAlmostDone
  | ChunkExtension
  | ChunkData
  | Crashed
deriving DecidableEq, Repr

/-- `HeaderState` from the source. -/
inductive HeaderState where
  | HeaderGeneral
  | HeaderConnection
  | HeaderContentLength
  | HeaderTransferEncoding
  | HeaderUpgrade
  | HeaderMatchingChunked
  | HeaderMatchingClose
  | HeaderMatchingKeepAlive
  | HeaderMatchingUpgrade
deriving DecidableEq, Repr

/-- `HttpVersion` from `src/http/mod.rs`. -/
inductive HttpVersion where
  | HTTP_0_9
  | HTTP_1_0
  | HTTP_1_1
deriving DecidableEq, Repr

/-- `HttpVersion::find` from `src/http/mod.rs`. -/
def HttpVersion.find (major minor : Nat) : Option HttpVersion :=
  if major = 0 then (if minor = 9 then some .HTTP_0_9 else none)
  else if major = 1 then
    (if minor = 0 then some .HTTP_1_0
     else if minor = 1 then some .HTTP_1_1 else none)
  else none

/-- `HttpMethod` from `src/http/mod.rs`. -/
inductive HttpMethod where
  | HttpCheckout
  | HttpConnect
  | HttpCopy
  | HttpDelete
  | HttpGet
  | HttpHead
  | HttpLink
  | HttpLock
  | HttpMerge
  | HttpMkActivity
  | HttpMkCalendar
  | HttpMkCol
  | HttpMove
  | HttpMsearch
  | HttpNotify
  | HttpOptions
  | HttpPatch
  | HttpPost
  | HttpPropFind
  | HttpPropPatch
  | HttpPurge
  | HttpPut
  | HttpReport
  | HttpSearch
  | HttpSubscribe
  | HttpTrace
  | HttpUnlink
  | HttpUnlock
  | HttpUnsubscribe
deriving DecidableEq, Repr

/-- `HttpMethod::name` from `src/http/mod.rs`. -/
def HttpMethod.name : HttpMethod → String
  | .HttpCheckout    => "CHECKOUT"
  | .HttpConnect     => "CONNECT"
  | .HttpCopy        => "COPY"
  | .HttpDelete      => "DELETE"
  | .HttpGet         => "GET"
  | .HttpHead        => "HEAD"
  | .HttpLink        => "LINK"
  | .HttpLock        => "LOCK"
  | .HttpMerge       => "MERGE"
  | .HttpMkActivity  => "MKACTIVITY"
  | .HttpMkCalendar  => "MKCALENDAR"
  | .HttpMkCol       => "MKCOL"
  | .HttpMove        => "MOVE"
  | .HttpMsearch     => "M-SEARCH"
  | .HttpNotify      => "NOTIFY"
  | .HttpOptions     => "OPTIONS"
  | .HttpPatch       => "PATCH"
  | .HttpPost        => "POST"
  | .HttpPropFind    => "PROPFIND"
  | .HttpPropPatch   => "PROPPATCH"
  | .HttpPut         => "PUT"
  | .HttpPurge       => "PURGE"
  | .HttpReport      => "REPORT"
  | .HttpSearch      => "SEARCH"
  | .HttpSubscribe   => "SUBSCRIBE"
  | .HttpTrace       => "TRACE"
  | .HttpUnlink      => "UNLINK"
  | .HttpUnlock      => "UNLOCK"
  | .HttpUnsubscribe => "UNSUBSCRIBE"

/-- The canonical method name as a byte list. -/
def methodBytes (m : HttpMethod) : List Nat := m.name.data.map Char.toNat

/-- `ParseError` from the source. -/
inductive ParseError where
  | OtherParseError
  | InvalidMethod
  | InvalidUrl
  | InvalidVersion
  | InvalidRequestLine
  | InvalidStatusCode
  | InvalidStatusLine
  | InvalidHeaderField
  | InvalidHeaders
  | InvalidChunk
  | InvalidEOFState
deriving DecidableEq, Repr

/-- One observable `MessageHandler` callback. -/
inductive Event where
  | message_begin
  | method (m : HttpMethod)
  | url (length : Nat)
  | version (v : HttpVersion)
  | status (code : Nat)
  | header_field (length : Nat)
  | header_value (length : Nat)
  | headers_complete
  | body (length : Nat)
  | message_complete
  | write (bytes : List Nat)
deriving DecidableEq, Repr

/-- The `Parser` struct from the source. -/
structure Parser where
  parser_type : ParseType
  state : ParserState
  hstate : HeaderState
  index : Nat
  skip_body : Bool
  http_version : Option HttpVersion
  major : Nat
  minor : Nat
  message_body_rest : Nat
  upgrade : Bool
  keep_alive : Bool
  chunked : Bool
  method : Option HttpMethod
  status_code : Nat
deriving DecidableEq, Repr

/-- The start state selected from the parser kind (`Parser::new` / `reset`). -/
def startState : ParseType → ParserState
  | .ParseRequest  => .StartReq
  | .ParseResponse => .StartRes
  | .ParseBoth     => .StartReqOrRes

/-- `Parser::new` from the source. -/
def Parser.new (t : ParseType) : Parser where
  parser_type := t
  state := startState t
  hstate := .HeaderGeneral
  index := 0
  skip_body := false
  http_version := none
  major := 0
  minor := 0
  message_body_rest := UINT_MAX
  upgrade := false
  keep_alive := false
  chunked := false
  method := none
  status_code := 0

/-- `Parser::reset` from the source: note which fields it touches and which
it leaves alone. -/
def Parser.reset (p : Parser) : Parser :=
  { p with
    state := startState p.parser_type
    index := 0
    major := 0
    minor := 0
    message_body_rest := UINT_MAX
    skip_body := false
    status_code := 0 }

/-- `Parser::needs_eof` from the source. -/
def Parser.needs_eof (p : Parser) : Bool :=
  if p.parser_type = .ParseRequest then false
  else if p.status_code / 100 = 1 ∨ p.status_code = 204 ∨ p.status_code = 304
          ∨ p.skip_body then false
  else true

/-- The first-byte method guess of the `StartReq` arm. -/
def firstMethod (b : Nat) : Option HttpMethod :=
  if b = 67 then some .HttpConnect        -- C, or CHECKOUT, COPY
  else if b = 68 then some .HttpDelete    -- D
  else if b = 71 then some .HttpGet       -- G
  else if b = 72 then some .HttpHead      -- H
  else if b = 76 then some .HttpLink      -- L, or LOCK
  else if b = 77 then some .HttpMkCol     -- M, or M-SEARCH, MERGE, MKACTIVITY, MKCALENDAR
  else if b = 78 then some .HttpNotify    -- N
  else if b = 79 then some .HttpOptions   -- O
  else if b = 80 then some .HttpPut       -- P, or PATCH, POST, PROPPATCH, PROPFIND
  else if b = 82 then some .HttpReport    -- R
  else if b = 83 then some .HttpSearch    -- S, or SUBSCRIBE
  else if b = 84 then some .HttpTrace     -- T
  else if b = 85 then some .HttpUnlink    -- U, or UNLOCK, UNSUBSCRIBE
  else none

/-- The guess-upgrade table of the `ReqMethod` arm, exactly as in the source
(including both `HttpConnect` arms mapping to `HttpCheckout`). -/
def methodUpgrade (m : HttpMethod) (idx b : Nat) : Option HttpMethod :=
  match m with
  | .HttpConnect =>
      if idx = 2 ∧ b = 72 then some .HttpCheckout        -- 'H'
      else if idx = 3 ∧ b = 80 then some .HttpCheckout   -- 'P'
      else none
  | .HttpLink => if idx = 1 ∧ b = 79 then some .HttpLock else none
  | .HttpMkCol =>
      if idx = 1 ∧ b = 45 then some .HttpMsearch         -- '-'
      else if idx = 1 ∧ b = 69 then some .HttpMerge      -- 'E'
      else if idx = 2 ∧ b = 65 then some .HttpMkActivity -- 'A'
      else if idx = 3 ∧ b = 65 then some .HttpMkCalendar -- 'A'
      else none
  | .HttpPut =>
      if idx = 1 ∧ b = 65 then some .HttpPatch           -- 'A'
      else if idx = 1 ∧ b = 79 then some .HttpPost       -- 'O'
      else if idx = 1 ∧ b = 82 then some .HttpPropPatch  -- 'R'
      else if idx = 2 ∧ b = 82 then some .HttpPurge      -- 'R'
      else none
  | .HttpPropPatch => if idx = 4 ∧ b = 70 then some .HttpPropFind else none
  | .HttpSearch => if idx = 1 ∧ b = 85 then some .HttpSubscribe else none
  | .HttpUnlink =>
      if idx = 2 ∧ b = 83 then some .HttpUnsubscribe     -- 'S'
      else if idx = 3 ∧ b = 79 then some .HttpUnlock     -- 'O'
      else none
  | _ => none

/-- Header-name recognizer initialisation at the first name byte
(`HeaderFieldStart` arm); `c` is the lowercased byte. -/
def startHState (c : Nat) : HeaderState :=
  if c = 99 then .HeaderConnection              -- 'c'
  else if c = 116 then .HeaderTransferEncoding  -- 't'
  else if c = 117 then .HeaderUpgrade           -- 'u'
  else .HeaderGeneral

/-- Header-name recognizer transition at a subsequent name byte
(`HeaderField` arm); `c` is the lowercased byte, `idx` the token index. -/
def nameUpdate (h : HeaderState) (idx c : Nat) : HeaderState :=
  match h with
  | .HeaderGeneral => .HeaderGeneral
  | .HeaderConnection =>
      if c = 111 ∧ idx = 1 then .HeaderConnection
      else if c = 110 ∧ idx = 2 then .HeaderConnection
      else if c = 110 ∧ idx = 3 then .HeaderConnection
      else if c = 101 ∧ idx = 4 then .HeaderConnection
      else if c = 99 ∧ idx = 5 then .HeaderConnection
      else if c = 116 ∧ idx = 6 then .HeaderConnection
      else if c = 105 ∧ idx = 7 then .HeaderConnection
      else if c = 111 ∧ idx = 8 then .HeaderConnection
      else if c = 110 ∧ idx = 9 then .HeaderConnection
      else if c = 116 ∧ idx = 3 then .HeaderContentLength
      else .HeaderGeneral
  | .HeaderContentLength =>
      if c = 101 ∧ idx = 4 then .HeaderContentLength
      else if c = 110 ∧ idx = 5 then .HeaderContentLength
      else if c = 116 ∧ idx = 6 then .HeaderContentLength
      else if c = 45 ∧ idx = 7 then .HeaderContentLength
      else if c = 108 ∧ idx = 8 then .HeaderContentLength
      else if c = 101 ∧ idx = 9 then .HeaderContentLength
      else if c = 110 ∧ idx = 10 then .HeaderContentLength
      else if c = 103 ∧ idx = 11 then .HeaderContentLength
      else if c = 116 ∧ idx = 12 then .HeaderContentLength
      else if c = 104 ∧ idx = 13 then .HeaderContentLength
      else .HeaderGeneral
  | .HeaderTransferEncoding =>
      if c = 114 ∧ idx = 1 then .HeaderTransferEncoding
      else if c = 97 ∧ idx = 2 then .HeaderTransferEncoding
      else if c = 110 ∧ idx = 3 then .HeaderTransferEncoding
      else if c = 115 ∧ idx = 4 then .HeaderTransferEncoding
      else if c = 102 ∧ idx = 5 then .HeaderTransferEncoding
      else if c = 101 ∧ idx = 6 then .HeaderTransferEncoding
      else if c = 114 ∧ idx = 7 then .HeaderTransferEncoding
      else if c = 45 ∧ idx = 8 then .HeaderTransferEncoding
      else if c = 101 ∧ idx = 9 then .HeaderTransferEncoding
      else if c = 110 ∧ idx = 10 then .HeaderTransferEncoding
      else if c = 99 ∧ idx = 11 then .HeaderTransferEncoding
      else if c = 111 ∧ idx = 12 then .HeaderTransferEncoding
      else if c = 100 ∧ idx = 13 then .HeaderTransferEncoding
      else if c = 105 ∧ idx = 14 then .HeaderTransferEncoding
      else if c = 110 ∧ idx = 15 then .HeaderTransferEncoding
      else if c = 103 ∧ idx = 16 then .HeaderTransferEncoding
      else .HeaderGeneral
  | _ => .HeaderGeneral

/-- Value-submatcher selection at the first non-whitespace value byte
(`HeaderValueDiscardWS` arm).  Returns the new header substate and the new
`message_body_rest`; the Content-Length arm performs the unchecked
`byte as uint - '0' as uint`. -/
def hvalueFirst (h : HeaderState) (mbr b : Nat) : HeaderState × Nat :=
  let c := lower b
  match h with
  | .HeaderConnection =>
      if c = 99 then (.HeaderMatchingClose, mbr)
      else if c = 107 then (.HeaderMatchingKeepAlive, mbr)
      else if c = 117 then (.HeaderMatchingUpgrade, mbr)
      else (.HeaderGeneral, mbr)
  | .HeaderTransferEncoding =>
      if c = 99 then (.HeaderMatchingChunked, mbr) else (.HeaderGeneral, mbr)
  | .HeaderContentLength => (.HeaderContentLength, usub b 48)
  | _ => (.HeaderGeneral, mbr)

/-- Value-submatcher transition at a subsequent value byte (the non-CR/LF
branch of the `HeaderValue` arm, applied only when the substate is not
`HeaderGeneral` and the byte is a token character). -/
def hvalueUpdate (h : HeaderState) (idx mbr b : Nat) : HeaderState × Nat :=
  let c := lower b
  match h with
  | .HeaderMatchingKeepAlive =>
      (if c = 101 ∧ idx = 1 then .HeaderMatchingKeepAlive
       else if c = 101 ∧ idx = 2 then .HeaderMatchingKeepAlive
       else if c = 112 ∧ idx = 3 then .HeaderMatchingKeepAlive
       else if c = 45 ∧ idx = 4 then .HeaderMatchingKeepAlive
       else if c = 97 ∧ idx = 5 then .HeaderMatchingKeepAlive
       else if c = 108 ∧ idx = 6 then .HeaderMatchingKeepAlive
       else if c = 105 ∧ idx = 7 then .HeaderMatchingKeepAlive
       else if c = 118 ∧ idx = 8 then .HeaderMatchingKeepAlive
       else if c = 101 ∧ idx = 9 then .HeaderMatchingKeepAlive
       else .HeaderGeneral, mbr)
  | .HeaderMatchingClose =>
      (if c = 108 ∧ idx = 1 then .HeaderMatchingClose
       else if c = 111 ∧ idx = 2 then .HeaderMatchingClose
       else if c = 115 ∧ idx = 3 then .HeaderMatchingClose
       else if c = 101 ∧ idx = 4 then .HeaderMatchingClose
       else .HeaderGeneral, mbr)
  | .HeaderMatchingChunked =>
      (if c = 104 ∧ idx = 1 then .HeaderMatchingChunked
       else if c = 117 ∧ idx = 2 then .HeaderMatchingChunked
       else if c = 110 ∧ idx = 3 then .HeaderMatchingChunked
       else if c = 107 ∧ idx = 4 then .HeaderMatchingChunked
       else if c = 101 ∧ idx = 5 then .HeaderMatchingChunked
       else if c = 100 ∧ idx = 6 then .HeaderMatchingChunked
       else .HeaderGeneral, mbr)
  | .HeaderMatchingUpgrade =>
      (if c = 112 ∧ idx = 1 then .HeaderMatchingUpgrade
       else if c = 103 ∧ idx = 2 then .HeaderMatchingUpgrade
       else if c = 114 ∧ idx = 3 then .HeaderMatchingUpgrade
       else if c = 97 ∧ idx = 4 then .HeaderMatchingUpgrade
       else if c = 100 ∧ idx = 5 then .HeaderMatchingUpgrade
       else if c = 101 ∧ idx = 6 then .HeaderMatchingUpgrade
       else .HeaderGeneral, mbr)
  | .HeaderContentLength =>
      if 48 ≤ b ∧ b ≤ 57 then (.HeaderContentLength, wrap (mbr * 10 + (b - 48)))
      else (.HeaderGeneral, UINT_MAX)
  | _ => (.HeaderGeneral, mbr)

/-- The flag assignment performed at the end of a header value (the CR/LF
branch of the `HeaderValue` arm). -/
def setFlags (p : Parser) : Parser :=
  match p.hstate with
  | .HeaderMatchingChunked => if p.index = 7 then { p with chunked := true } else p
  | .HeaderMatchingClose => if p.index = 5 then { p with keep_alive := false } else p
  | .HeaderMatchingKeepAlive => if p.index = 10 then { p with keep_alive := true } else p
  | .HeaderMatchingUpgrade => if p.index = 6 then { p with upgrade := true } else p
  | _ => p

/-- Result of processing one byte inside the main `for` loop of `parse`:
continue the loop, `break`, `return Err(..)`, or a Rust panic. -/
inductive StepRes where
  | cont (p : Parser) (es : List Event)
  | brk (p : Parser) (es : List Event)
  | ret (p : Parser) (e : ParseError) (es : List Event)
  | panicked (es : List Event)
deriving DecidableEq, Repr

/-- One iteration of the main byte loop of `Parser::parse`.  `dat` is the
whole input slice of the call, `read` the value of the `read` counter after
the `read += 1` at the top of the loop body (so the current byte is
`dat[read-1]`), `b` the current byte, `hr` the value returned by the
handler's `on_headers_complete`. -/
def stepByte (hr : Bool) (dat : List Nat) (read : Nat) (p : Parser) (b : Nat) :
    StepRes :=
  match p.state with
  | .StartReq =>
      if b = 13 ∨ b = 10 then .brk p []
      else match firstMethod b with
        | none => .ret { p with state := .Crashed } .InvalidMethod []
        | some m =>
            .cont { p with method := some m, state := .ReqMethod, index := 1 }
              [.message_begin]
  | .StartRes =>
      if b = 72 then
        .cont { p with state := .ResHttpStart, index := 1 } [.message_begin]
      else if b = 13 ∨ b = 10 then .brk p []
      else .ret { p with state := .Crashed } .InvalidMethod []
  | .ReqMethod =>
      match p.method with
      | none => .panicked []
      | some m =>
          if b = 32 then
            .cont { p with state := .ReqUrl, index := 0 } [.method m]
          else match (methodBytes m).get? p.index with
            | none => .panicked []
            | some ch =>
                if ch = b then .cont { p with index := p.index + 1 } []
                else match methodUpgrade m p.index b with
                  | some m' =>
                      .cont { p with method := some m', index := p.index + 1 } []
                  | none => .ret { p with state := .Crashed } .InvalidMethod []
  | .ReqUrl =>
      if b = 32 then
        if p.index = 0 then .ret { p with state := .Crashed } .InvalidUrl []
        else
          let s := if read > p.index + 1 then read - p.index - 1 else 0
          .cont { p with state := .ReqHttpStart, index := 0 }
            [.write (slice dat s (read - 1)), .url p.index]
      else if b = 13 ∨ b = 10 then
        if p.index = 0 then .ret { p with state := .Crashed } .InvalidUrl []
        else
          let s := if read > p.index + 1 then read - p.index - 1 else 0
          .brk { p with http_version := some .HTTP_0_9, state := .Dead, index := 0 }
            [.write (slice dat s (read - 1)), .url p.index, .message_complete]
      else .cont { p with index := p.index + 1 } []
  | .ReqHttpStart =>
      if (b ≠ 72 ∧ p.index = 0) ∨ (b ≠ 84 ∧ (p.index = 1 ∨ p.index = 2))
          ∨ (b ≠ 80 ∧ p.index = 3) ∨ (b ≠ 47 ∧ p.index = 4)
          ∨ ((b < 48 ∨ 57 < b) ∧ p.index = 5) then
        .ret { p with state := .Crashed } .InvalidVersion []
      else if p.index = 5 then
        .cont { p with state := .ReqHttpMajor, major := b - 48, index := 1 } []
      else .cont { p with index := p.index + 1 } []
  | .ReqHttpMajor =>
      if b = 46 ∧ p.index > 0 then
        .cont { p with state := .ReqHttpMinor, index := 0 } []
      else if 48 ≤ b ∧ b ≤ 57 then
        .cont { p with index := p.index + 1, major := wrap (p.major * 10 + (b - 48)) } []
      else .ret { p with state := .Crashed } .InvalidVersion []
  | .ReqHttpMinor =>
      if 48 ≤ b ∧ b ≤ 57 then
        .cont { p with index := p.index + 1, minor := wrap (p.minor * 10 + (b - 48)) } []
      else if (b = 13 ∨ b = 10) ∧ p.index > 0 then
        match HttpVersion.find p.major p.minor with
        | none => .ret { p with state := .Crashed } .InvalidVersion []
        | some v =>
            .cont { p with http_version := some v,
                           keep_alive := decide (v = .HTTP_1_1),
                           state := if b = 13 then .ReqLineAlmostDone
                                    else .HeaderFieldStart,
                           index := 0 }
              [.version v]
      else .ret { p with state := .Crashed } .InvalidVersion []
  | .ReqLineAlmostDone =>
      -- note: the source returns this error without entering `Crashed`
      if b ≠ 10 then .ret p .InvalidRequestLine []
      else .cont { p with state := .HeaderFieldStart } []
  | .ResHttpStart =>
      if (b ≠ 84 ∧ (p.index = 1 ∨ p.index = 2)) ∨ (b ≠ 80 ∧ p.index = 3)
          ∨ (b ≠ 47 ∧ p.index = 4) ∨ ((b < 48 ∨ 57 < b) ∧ p.index = 5) then
        .ret { p with state := .Crashed } .InvalidVersion []
      else if p.index = 5 then
        .cont { p with state := .ResHttpMajor, major := b - 48, index := 1 } []
      else .cont { p with index := p.index + 1 } []
  | .ResHttpMajor =>
      if b = 46 ∧ p.index > 0 then
        .cont { p with state := .ResHttpMinor, index := 0 } []
      else if 48 ≤ b ∧ b ≤ 57 then
        .cont { p with index := p.index + 1, major := wrap (p.major * 10 + (b - 48)) } []
      else .ret { p with state := .Crashed } .InvalidVersion []
  | .ResHttpMinor =>
      if 48 ≤ b ∧ b ≤ 57 then
        .cont { p with index := p.index + 1, minor := wrap (p.minor * 10 + (b - 48)) } []
      else if b = 32 ∧ p.index > 0 then
        match HttpVersion.find p.major p.minor with
        | none => .ret { p with state := .Crashed } .InvalidVersion []
        | some v =>
            .cont { p with http_version := some v,
                           keep_alive := decide (v = .HTTP_1_1),
                           state := .ResStatusCode, index := 0 }
              [.version v]
      else .ret { p with state := .Crashed } .InvalidVersion []
  | .ResStatusCodeStart =>
      if 48 ≤ b ∧ b ≤ 57 then
        .cont { p with state := .ResStatusCode, status_code := b - 48, index := 1 } []
      else if b ≠ 32 then
        .ret { p with state := .Crashed } .InvalidStatusCode []
      else .cont p []
  | .ResStatusCode =>
      if 48 ≤ b ∧ b ≤ 57 ∧ p.index < 3 then
        .cont { p with status_code := wrap (p.status_code * 10 + (b - 48)),
                       index := p.index + 1 } []
      else
        -- `on_status` fires before the state is inspected
        if b = 32 then
          .cont { p with state := .ResStatus, index := 0 } [.status p.status_code]
        else if b = 13 then
          .cont { p with state := .ResLineAlmostDone, index := 0 } [.status p.status_code]
        else if b = 10 then
          .cont { p with state := .HeaderFieldStart, index := 0 } [.status p.status_code]
        else
          .ret { p with state := .Crashed } .InvalidStatusLine [.status p.status_code]
  | .ResStatus =>
      .cont { p with state := if b = 13 then .ResLineAlmostDone
                              else if b = 10 then .HeaderFieldStart
                              else .ResStatus } []
  | .ResLineAlmostDone =>
      -- note: the source returns this error without entering `Crashed`
      if b ≠ 10 then .ret p .InvalidStatusLine []
      else .cont { p with state := .HeaderFieldStart } []
  | .HeaderFieldStart =>
      if b = 13 then .cont { p with state := .HeadersAlmostDone } []
      else if b = 10 then
        -- end of headers via a lone LF: no upgrade and no chunked check here
        if hr ∨ p.skip_body then
          .brk p.reset [.headers_complete, .message_complete]
        else if p.message_body_rest = 0 then
          .brk p.reset [.headers_complete, .message_complete]
        else if p.message_body_rest = UINT_MAX then
          if p.parser_type = .ParseRequest ∨ ¬ p.needs_eof then
            .brk p.reset [.headers_complete, .message_complete]
          else .brk { p with state := .BodyIdentityEOF } [.headers_complete]
        else .brk { p with state := .BodyIdentity } [.headers_complete]
      else if isToken b then
        .cont { p with state := .HeaderField, hstate := startHState (lower b),
                       index := 1 } []
      else .ret { p with state := .Crashed } .InvalidHeaderField []
  | .HeaderField =>
      if b = 58 then
        let s := if read > p.index + 1 then read - p.index - 1 else 0
        .cont { p with state := .HeaderValueDiscardWS, index := 0 }
          [.write (slice dat s (read - 1)), .header_field p.index]
      else if b = 13 then .cont { p with state := .HeaderAlmostDone, index := 0 } []
      else if b = 10 then .cont { p with state := .HeaderFieldStart, index := 0 } []
      else if isToken b then
        .cont { p with hstate := nameUpdate p.hstate p.index (lower b),
                       index := p.index + 1 } []
      else .ret { p with state := .Crashed } .InvalidHeaderField []
  | .HeaderValueDiscardWS =>
      if b = 32 ∨ b = 9 then .cont p []
      else if b = 13 then .cont { p with state := .HeaderValueDiscardWSAlmostDone } []
      else if b = 10 then .cont { p with state := .HeaderValueDiscardLWS } []
      else
        let hm := hvalueFirst p.hstate p.message_body_rest b
        .cont { p with hstate := hm.1, message_body_rest := hm.2,
                       state := .HeaderValue, index := p.index + 1 } []
  | .HeaderValueDiscardWSAlmostDone =>
      if b ≠ 10 then .ret { p with state := .Crashed } .InvalidHeaderField []
      else .cont { p with state := .HeaderValueDiscardLWS } []
  | .HeaderValueDiscardLWS =>
      if b = 32 ∨ b = 9 then .cont { p with state := .HeaderValueDiscardWS } []
      else
        -- the header value is empty: `on_header_value(0)` fires first
        if b = 13 then
          .cont { p with state := .HeadersAlmostDone, index := 0 } [.header_value 0]
        else if b = 10 then
          -- end of headers: this block does check upgrade and chunked
          if hr ∨ p.upgrade ∨ p.skip_body then
            .brk { p.reset with index := 0 } [.header_value 0, .headers_complete, .message_complete]
          else if p.chunked then
            .brk { p with state := .ChunkSize, message_body_rest := 0, index := 0 }
              [.header_value 0, .headers_complete]
          else if p.message_body_rest = 0 then
            .brk { p.reset with index := 0 } [.header_value 0, .headers_complete, .message_complete]
          else if p.message_body_rest = UINT_MAX then
            if p.parser_type = .ParseRequest ∨ ¬ p.needs_eof then
              .brk { p.reset with index := 0 } [.header_value 0, .headers_complete, .message_complete]
            else .brk { p with state := .BodyIdentityEOF, index := 0 }
              [.header_value 0, .headers_complete]
          else .brk { p with state := .BodyIdentity, index := 0 }
            [.header_value 0, .headers_complete]
        else if isToken b then
          .cont { p with state := .HeaderFieldStart, index := 1 } [.header_value 0]
        else .ret { p with state := .Crashed, index := 0 } .InvalidHeaderField
          [.header_value 0]
  | .HeaderValue =>
      if b = 13 ∨ b = 10 then
        let p1 := { p with state := if b = 13 then .HeaderAlmostDone
                                    else .HeaderFieldStart }
        let p2 := setFlags p1
        let s := if read > p.index + 1 then read - p.index - 1 else 0
        .cont { p2 with index := 0 }
          [.write (slice dat s (read - 1)), .header_value p.index]
      else
        if p.hstate ≠ .HeaderGeneral ∧ isToken b then
          let hm := hvalueUpdate p.hstate p.index p.message_body_rest b
          .cont { p with hstate := hm.1, message_body_rest := hm.2,
                         index := p.index + 1 } []
        else .cont { p with index := p.index + 1 } []
  | .HeaderAlmostDone =>
      if b ≠ 10 then .ret { p with state := .Crashed } .InvalidHeaderField []
      else .cont { p with state := .HeaderFieldStart } []
  | .HeadersAlmostDone =>
      if b ≠ 10 then .ret { p with state := .Crashed } .InvalidHeaders []
      else
        if hr ∨ p.upgrade ∨ p.skip_body then
          .brk p.reset [.headers_complete, .message_complete]
        else if p.chunked then
          .brk { p with state := .ChunkSize, message_body_rest := 0 }
            [.headers_complete]
        else if p.message_body_rest = 0 then
          .brk p.reset [.headers_complete, .message_complete]
        else if p.message_body_rest = UINT_MAX then
          if p.parser_type = .ParseRequest ∨ ¬ p.needs_eof then
            .brk p.reset [.headers_complete, .message_complete]
          else .brk { p with state := .BodyIdentityEOF } [.headers_complete]
        else .brk { p with state := .BodyIdentity } [.headers_complete]
  | .BodyIdentity => .panicked []     -- unreachable!()
  | .BodyIdentityEOF => .panicked []  -- unreachable!()
  | .Dead => .panicked []             -- unreachable!()
  | .Crashed => .panicked []          -- unreachable!()
  | _ => .panicked []                 -- unimplemented!()

/-- Result of the main byte loop: the slice was exhausted, the loop hit a
`break`, the function returned an error, or a panic occurred. -/
inductive ByteRes where
  | exhausted (p : Parser) (read : Nat) (evs : List Event)
  | broke (p : Parser) (read : Nat) (evs : List Event)
  | errored (p : Parser) (e : ParseError) (evs : List Event)
  | panicked (evs : List Event)
deriving DecidableEq, Repr

/-- The main byte loop of `parse`, running `stepByte` over the remaining
bytes `rest` (an invariant of all uses: `rest = dat.drop read`). -/
def byteLoop (hr : Bool) (dat : List Nat) (p : Parser) (read : Nat)
    (evs : List Event) : List Nat → ByteRes
  | [] => .exhausted p read evs
  | b :: rest =>
      match stepByte hr dat (read + 1) p b with
      | .cont p' es => byteLoop hr dat p' (read + 1) (evs ++ es) rest
      | .brk p' es => .broke p' (read + 1) (evs ++ es)
      | .ret p' e es => .errored p' e (evs ++ es)
      | .panicked es => .panicked (evs ++ es)

/-- Result of the `'chunk: loop`. -/
inductive ChunkRes where
  | finished (p : Parser) (read : Nat) (evs : List Event)
  | errored (p : Parser) (e : ParseError) (evs : List Event)
  | panicked (evs : List Event)
deriving DecidableEq, Repr

/-- Result of one pass of the inner `'chunksize: for` loop. -/
inductive InnerRes where
  | exhausted (p : Parser) (read : Nat) (evs : List Event)
  | toData (p : Parser) (read : Nat) (evs : List Event)
  | doneChunk (p : Parser) (read : Nat) (evs : List Event)
  | errored (p : Parser) (e : ParseError) (evs : List Event)
  | panicked (evs : List Event)
deriving DecidableEq, Repr

/-- The inner `'chunksize: for` loop over the remaining bytes. -/
def chunkInner (p : Parser) (read : Nat) (evs : List Event) :
    List Nat → InnerRes
  | [] => .exhausted p read evs
  | b :: rest =>
      match p.state with
      | .ChunkExtension =>
          if b = 13 then
            chunkInner { p with state := .ChunkSizeAlmostDone } (read + 1) evs rest
          else chunkInner p (read + 1) evs rest
      | .ChunkSize =>
          if b = 59 then
            chunkInner { p with state := .ChunkExtension } (read + 1) evs rest
          else if b = 13 then
            chunkInner { p with state := .ChunkSizeAlmostDone } (read + 1) evs rest
          else
            let val := unhex b
            if val > 15 then
              .errored { p with state := .Crashed } .InvalidChunk evs
            else
              chunkInner
                { p with message_body_rest := wrap (p.message_body_rest * 16 + val) }
                (read + 1) evs rest
      | .ChunkSizeAlmostDone =>
          if b ≠ 10 then .errored { p with state := .Crashed } .InvalidChunk evs
          else if p.message_body_rest = 0 then
            .doneChunk p (read + 1) (evs ++ [.message_complete])
          else .toData { p with state := .ChunkData } (read + 1) evs
      | _ => .panicked evs  -- unreachable!()

/-- The outer `'chunk: loop`.  This loop of the source does not terminate
when the input is exhausted in the middle of a chunk-size line, so it is
modelled with fuel: `none` means the fuel ran out. -/
def chunkOuter (dat : List Nat) : Nat → Parser → Nat → List Event →
    Option ChunkRes
  | 0, _, _, _ => none
  | fuel + 1, p, read, evs =>
      if p.state = .ChunkData then
        let rest := dat.length - read
        if p.message_body_rest = 0 ∧ rest > 2 then
          if dat.getD read 0 ≠ 13 ∨ dat.getD (read + 1) 0 ≠ 10 then
            some (.errored { p with state := .Crashed } .InvalidChunk evs)
          else chunkOuter dat fuel { p with state := .ChunkSize } (read + 2) evs
        else if rest ≥ p.message_body_rest then
          let evs' := evs ++ [.write (slice dat read (read + p.message_body_rest))]
          let read' := read + p.message_body_rest
          let p' := { p with message_body_rest := 0 }
          if dat.length - read' < 2 then some (.finished p' read' evs')
          else chunkOuter dat fuel { p' with state := .ChunkSize } (read' + 2) evs'
        else
          some (.finished
            { p with message_body_rest := p.message_body_rest - rest }
            (read + rest) (evs ++ [.write (dat.drop read)]))
      else
        match chunkInner p read evs (dat.drop read) with
        | .exhausted p' read' evs' => chunkOuter dat fuel p' read' evs'
        | .toData p' read' evs' => chunkOuter dat fuel p' read' evs'
        | .doneChunk p' read' evs' => some (.finished p' read' evs')
        | .errored p' e evs' => some (.errored p' e evs')
        | .panicked evs' => some (.panicked evs')

/-- Final outcome of one `parse` call: the final parser, the `Ok(consumed)`
or `Err(..)` result, and the callback trace. -/
inductive Outcome where
  | ok (p : Parser) (consumed : Nat) (evs : List Event)
  | err (p : Parser) (e : ParseError) (evs : List Event)
  | panicked (evs : List Event)
deriving DecidableEq, Repr

/-- The `match self.state` block at the end of `parse` (identity-body
streaming and the trailing-token write), followed by `Ok(read)`. -/
def finalize (dat : List Nat) (p : Parser) (read : Nat) (evs : List Event) :
    Outcome :=
  match p.state with
  | .BodyIdentity =>
      let rest := dat.length - read
      if rest ≥ p.message_body_rest then
        .ok p.reset (read + p.message_body_rest)
          (evs ++ [.write (slice dat read (read + p.message_body_rest)),
                   .body p.message_body_rest, .message_complete])
      else
        .ok { p with message_body_rest := p.message_body_rest - rest }
          (read + rest) (evs ++ [.write (dat.drop read)])
  | .ReqUrl =>
      let s := if read > p.index then read - p.index else 0
      .ok p read (evs ++ [.write (slice dat s read)])
  | .HeaderField =>
      let s := if read > p.index then read - p.index else 0
      .ok p read (evs ++ [.write (slice dat s read)])
  | .HeaderValue =>
      let s := if read > p.index then read - p.index else 0
      .ok p read (evs ++ [.write (slice dat s read)])
  | _ => .ok p read evs

/-- Does the byte loop run for this state?  (The complement of the state
set tested at the top of `parse`.) -/
def runsByteLoop (s : ParserState) : Bool :=
  ¬ (s = .BodyIdentity ∨ s = .BodyIdentityEOF ∨ s = .ChunkSize
     ∨ s = .ChunkSizeAlmostDone ∨ s = .ChunkData)

/-- `Parser::parse` from the source.  `fuel` bounds the iterations of the
outer `'chunk: loop` (the only loop of the source that can fail to
terminate); `none` means the fuel ran out. -/
def parse (fuel : Nat) (hr : Bool) (p : Parser) (dat : List Nat) :
    Option Outcome :=
  if p.state = .Dead then some (.ok p 0 [])
  else if p.state = .Crashed then some (.err p .OtherParseError [])
  else if dat.length = 0 then some (.ok p 0 [])
  else
    let bres := if runsByteLoop p.state then byteLoop hr dat p 0 [] dat
                else .exhausted p 0 []
    match bres with
    | .errored p' e evs => some (.err p' e evs)
    | .panicked evs => some (.panicked evs)
    | .exhausted p1 read1 evs1 =>
        (if p1.chunked then chunkOuter dat fuel p1 read1 evs1
         else some (.finished p1 read1 evs1)).map
          fun cres => match cres with
            | .finished p2 read2 evs2 => finalize dat p2 read2 evs2
            | .errored p' e evs => .err p' e evs
            | .panicked evs => .panicked evs
    | .broke p1 read1 evs1 =>
        (if p1.chunked then chunkOuter dat fuel p1 read1 evs1
         else some (.finished p1 read1 evs1)).map
          fun cres => match cres with
            | .finished p2 read2 evs2 => finalize dat p2 read2 evs2
            | .errored p' e evs => .err p' e evs
            | .panicked evs => .panicked evs

/-! ### Projections of a parse result, used to state concrete facts -/

/-- The `Ok(consumed)` value of a parse result, if any. -/
def consumedOf : Option Outcome → Option Nat
  | some (.ok _ n _) => some n
  | _ => none

/-- The `Err(..)` value of a parse result, if any. -/
def errorOf : Option Outcome → Option ParseError
  | some (.err _ e _) => some e
  | _ => none

/-- The final parser of a parse result that did not panic or diverge. -/
def finalParser : Option Outcome → Option Parser
  | some (.ok p _ _) => some p
  | some (.err p _ _) => some p
  | _ => none

/-- The callback trace of a parse result. -/
def eventsOf : Option Outcome → List Event
  | some (.ok _ _ evs) => evs
  | some (.err _ _ evs) => evs
  | some (.panicked evs) => evs
  | none => []

/-! ### Concrete inputs used by the claims -/

/-- An HTTP/1.1 response with no declared length (enters `BodyIdentityEOF`). -/
def respNoLen : List Nat := strBytes "HTTP/1.1 200 OK\r\n\r\n"

/-- A chunked response cut off immediately after the header block. -/
def teHeadersOnly : List Nat :=
  strBytes "HTTP/1.1 200 OK\r\nTransfer-Encoding: chunked\r\n\r\n"

/-- The complete chunked response of spec scenario S6. -/
def chunkedMsg : List Nat :=
  strBytes "HTTP/1.1 200 OK\r\nTransfer-Encoding: chunked\r\n\r\n5\r\nhello\r\n0\r\n\r\n"

/-- A request line whose CR is followed by a byte other than LF. -/
def reqBadLineEnd : List Nat := strBytes "GET / HTTP/1.1\rX"

/-- A request whose method token is a strict prefix of `GET`. -/
def geReq : List Nat := strBytes "GE / HTTP/1.1\r\n\r\n"

/-- A plain complete HTTP/1.1 GET request. -/
def basicReq : List Nat := strBytes "GET / HTTP/1.1\r\n\r\n"

/-- A request using the `CHECKOUT` method. -/
def checkoutReq : List Nat := strBytes "CHECKOUT /\r\n"

/-- A request using the `COPY` method. -/
def copyReq : List Nat := strBytes "COPY /\r\n"

/-- A request with a non-digit Content-Length value. -/
def clxReq : List Nat := strBytes "PUT / HTTP/1.1\r\nContent-Length: x\r\n\r\n"

/-- A request whose Connection value is `cl se` (not `close`). -/
def clseReq : List Nat := strBytes "GET / HTTP/1.1\r\nConnection: cl se\r\n\r\n"

/-- The parser state reached after `respNoLen`: identity-to-EOF body. -/
def pBodyEOF : Parser :=
  ⟨.ParseResponse, .BodyIdentityEOF, .HeaderGeneral, 0, false,
   some .HTTP_1_1, 1, 1, UINT_MAX, false, true, false, none, 200⟩

/-- The parser state reached after the failed `reqBadLineEnd` call: the error
was returned without entering `Crashed`. -/
def pAfterBadLineEnd : Parser :=
  ⟨.ParseRequest, .ReqLineAlmostDone, .HeaderGeneral, 0, false,
   some .HTTP_1_1, 1, 1, UINT_MAX, false, true, false, some .HttpGet, 0⟩

/-- The parser state reached after parsing `chunkedMsg` completely. -/
def pAfterChunked : Parser :=
  ⟨.ParseResponse, .ChunkSizeAlmostDone, .HeaderMatchingChunked, 0, false,
   some .HTTP_1_1, 1, 1, 0, false, true, true, none, 200⟩

/-- The callback trace of parsing `chunkedMsg`. -/
def chunkedEvents : List Event :=
  [.message_begin, .version .HTTP_1_1, .status 200,
   .write (strBytes "Transfer-Encoding"), .header_field 17,
   .write (strBytes "chunked"), .header_value 7,
   .headers_complete, .write (strBytes "hello"), .message_complete]

/-- The parser state after the complete `geReq` call. -/
def pAfterGe : Parser :=
  ⟨.ParseRequest, .StartReq, .HeaderGeneral, 0, false,
   some .HTTP_1_1, 0, 0, UINT_MAX, false, true, false, some .HttpGet, 0⟩

/-- The parser state after the complete `basicReq` call. -/
def pAfterBasic : Parser :=
  ⟨.ParseRequest, .StartReq, .HeaderGeneral, 0, false,
   some .HTTP_1_1, 0, 0, UINT_MAX, false, true, false, some .HttpGet, 0⟩

/-- A parser mid-way through a method token whose guess is `GET` with only
two bytes read (the strict prefix `GE`). -/
def pMethodGe : Parser :=
  ⟨.ParseRequest, .ReqMethod, .HeaderGeneral, 2, false,
   none, 0, 0, UINT_MAX, false, false, false, some .HttpGet, 0⟩

/-- A parser about to read the final LF of a header block, with a zero
Content-Length recorded and version/method/flags carrying message values. -/
def pHeadersEnd : Parser :=
  ⟨.ParseRequest, .HeadersAlmostDone, .HeaderGeneral, 0, false,
   some .HTTP_1_1, 1, 1, 0, false, true, false, some .HttpGet, 0⟩

/-- A parser that has just consumed `Content-Length:` and skipped the
following whitespace. -/
def pCLValueStart : Parser :=
  ⟨.ParseRequest, .HeaderValueDiscardWS, .HeaderContentLength, 0, false,
   some .HTTP_1_1, 1, 1, UINT_MAX, false, true, false, some .HttpPut, 0⟩

/-- The decimal number denoted by a digit string (the claim's "multiplying
by 10 and adding each digit"). -/
def decVal (vs : List Nat) : Nat := vs.foldl (fun a b => a * 10 + (b - 48)) 0

/-- The parser state after the complete `clxReq` call: the bogus value `x`
became a body length of 72, not the unknown sentinel. -/
def pAfterClx : Parser :=
  ⟨.ParseRequest, .BodyIdentity, .HeaderContentLength, 0, false,
   some .HTTP_1_1, 1, 1, 72, false, true, false, some .HttpPut, 0⟩

/-! ### Pure per-header-line machinery (folds of the recognizer functions
above, used to state what one well-formed header line does to the parser) -/

/-- Folding the header-name recognizer over the remaining name bytes. -/
def nameFold : HeaderState → Nat → List Nat → HeaderState
  | h, _, [] => h
  | h, i, b :: r => nameFold (nameUpdate h i (lower b)) (i + 1) r

/-- Folding the header-value recognizer over the remaining value bytes
(returns the final substate and `message_body_rest`). -/
def valueFold : HeaderState → Nat → Nat → List Nat → HeaderState × Nat
  | h, _, mbr, [] => (h, mbr)
  | h, i, mbr, b :: r =>
      if h ≠ .HeaderGeneral ∧ isToken b then
        let hm := hvalueUpdate h i mbr b
        valueFold hm.1 (i + 1) hm.2 r
      else valueFold h (i + 1) mbr r

/-- The recognizer substate at the end of a header name. -/
def headerNameState (nm : List Nat) : HeaderState :=
  match nm with
  | [] => .HeaderGeneral
  | b :: r => nameFold (startHState (lower b)) 1 r

/-- The recognizer substate and `message_body_rest` at the end of a header
value, given the substate at the colon. -/
def headerValueEnd (h : HeaderState) (mbr : Nat) (v : List Nat) :
    HeaderState × Nat :=
  match v with
  | [] => (.HeaderGeneral, mbr)
  | b :: r =>
      let hm := hvalueFirst h mbr b
      valueFold hm.1 1 hm.2 r

/-- The parser after processing one full header line
`name ++ ": " ++ value ++ CRLF` from `HeaderFieldStart`. -/
def lineResult (p : Parser) (nm v : List Nat) : Parser :=
  let hm := headerValueEnd (headerNameState nm) p.message_body_rest v
  let p2 := setFlags
    { p with hstate := hm.1, message_body_rest := hm.2, index := v.length,
             state := .HeaderAlmostDone }
  { p2 with index := 0, state := .HeaderFieldStart }

/-- The callbacks fired by one full header line. -/
def lineEvents (nm v : List Nat) : List Event :=
  [.write nm, .header_field nm.length, .write v, .header_value v.length]

/-- The parser after a list of header lines. -/
def hdrsResult (p : Parser) : List (List Nat × List Nat) → Parser
  | [] => p
  | (nm, v) :: hs => hdrsResult (lineResult p nm v) hs

/-- The callbacks fired by a list of header lines. -/
def hdrsEvents : List (List Nat × List Nat) → List Event
  | [] => []
  | (nm, v) :: hs => lineEvents nm v ++ hdrsEvents hs

/-- The wire bytes of a list of header lines. -/
def hdrBytes : List (List Nat × List Nat) → List Nat
  | [] => []
  | (nm, v) :: hs => nm ++ 58 :: 32 :: (v ++ 13 :: 10 :: hdrBytes hs)

/-- The request line `GET / HTTP/1.1` with CRLF. -/
def reqLineBytes : List Nat := strBytes "GET / HTTP/1.1\r\n"

/-- A GET request assembled from a list of header name/value pairs. -/
def mkGetReq (hs : List (List Nat × List Nat)) : List Nat :=
  reqLineBytes ++ hdrBytes hs ++ [13, 10]

/-- The callbacks of the request line of `mkGetReq`. -/
def reqLineEvents : List Event :=
  [.message_begin, .method .HttpGet, .write (strBytes "/"), .url 1,
   .version .HTTP_1_1]

/-- The parser after the request line of `mkGetReq`. -/
def pHdrStart : Parser :=
  ⟨.ParseRequest, .HeaderFieldStart, .HeaderGeneral, 0, false,
   some .HTTP_1_1, 1, 1, UINT_MAX, false, true, false, some .HttpGet, 0⟩

/-- Well-formedness of one header pair: a non-empty all-token name without
colons, and a non-empty value free of CR/LF that does not start with
whitespace. -/
def WFheader (nv : List Nat × List Nat) : Prop :=
  nv.1 ≠ [] ∧ (∀ b ∈ nv.1, isToken b = true ∧ b ≠ 58) ∧
  nv.2 ≠ [] ∧ (∀ b ∈ nv.2, b ≠ 13 ∧ b ≠ 10) ∧
  nv.2.getD 0 0 ≠ 32 ∧ nv.2.getD 0 0 ≠ 9

instance (nv : List Nat × List Nat) : Decidable (WFheader nv) := by
  unfold WFheader; infer_instance

/-- Does this header line set `keep_alive := false` (the recognizer ends in
`HeaderMatchingClose` with value length exactly 5)? -/
def lineSetsClose (nm v : List Nat) : Bool :=
  decide ((headerValueEnd (headerNameState nm) 0 v).1 = .HeaderMatchingClose
    ∧ v.length = 5)

/-- Does this header line set `keep_alive := true` (the recognizer ends in
`HeaderMatchingKeepAlive` with value length exactly 10)? -/
def lineSetsKeepAlive (nm v : List Nat) : Bool :=
  decide ((headerValueEnd (headerNameState nm) 0 v).1 = .HeaderMatchingKeepAlive
    ∧ v.length = 10)

/-- The cumulative effect of the header lines on `keep_alive` (the last
close / keep-alive match wins). -/
def kaStep (ka : Bool) (nv : List Nat × List Nat) : Bool :=
  if lineSetsClose nv.1 nv.2 then false
  else if lineSetsKeepAlive nv.1 nv.2 then true
  else ka

/-- The bytes of the lower-case word `connection`. -/
def connBytes : List Nat := strBytes "connection"

/-- The bytes of the lower-case word `close`. -/
def closeBytes : List Nat := strBytes "close"

/-- The bytes of the lower-case word `keep-alive`. -/
def kaBytes : List Nat := strBytes "keep-alive"

/-- The names the recognizer treats as `Connection`: non-empty, at most 10
bytes, and every byte lowercases to the letter of `connection` at its
position (so every non-empty case-insensitive prefix of `connection`
qualifies, e.g. `Conn`). -/
def connectionName (nm : List Nat) : Prop :=
  nm ≠ [] ∧ nm.length ≤ 10 ∧
  ∀ i < nm.length, isToken (nm.getD i 0) = true ∧
    lower (nm.getD i 0) = connBytes.getD i 0

/-- The values the recognizer accepts as `close`: exactly 5 bytes, the
first lowercasing to `c`, and every further byte that is a token character
lowercasing to the letter of `close` at its position (non-token bytes are
not checked). -/
def closeValue (v : List Nat) : Prop :=
  v.length = 5 ∧ lower (v.getD 0 0) = 99 ∧
  ∀ i, 1 ≤ i → i < 5 → isToken (v.getD i 0) = true →
    lower (v.getD i 0) = closeBytes.getD i 0

/-- The values the recognizer accepts as `keep-alive`, analogously. -/
def keepAliveValue (v : List Nat) : Prop :=
  v.length = 10 ∧ lower (v.getD 0 0) = 107 ∧
  ∀ i, 1 ≤ i → i < 10 → isToken (v.getD i 0) = true →
    lower (v.getD i 0) = kaBytes.getD i 0

/-! ## Theorems -/

/-- Helper: the outer chunk loop spins forever once the input is exhausted
while the state is a chunk-size-line state: every iteration re-enters
`chunkInner` on the empty remainder, which changes nothing. -/
theorem chunkOuter_exhausted_none (dat : List Nat) (p : Parser) (read : Nat)
    (evs : List Event) (hs : p.state ≠ .ChunkData) (hd : dat.drop read = []) :
    ∀ fuel, chunkOuter dat fuel p read evs = none := by
  intro fuel
  induction fuel with
  | zero => rfl
  | succ n ih =>
      rw [chunkOuter, if_neg hs, hd]
      exact ih

/-- Helper: a parser whose state is `Crashed` rejects every call with
`OtherParseError`, consuming nothing and firing no callback. -/
theorem parse_crashed (fuel : Nat) (hr : Bool) (p : Parser) (dat : List Nat)
    (h : p.state = .Crashed) :
    parse fuel hr p dat = some (.err p .OtherParseError []) := by
  simp [parse, h]

/-- C1.  The claim says every byte fed in state `BodyIdentityEOF` is
delivered to the byte sink and counted as consumed.  The code disagrees:
the byte loop skips this state, the trailing `match self.state` has no arm
for it (the source comments out an `unimplemented!()` there), and the call
returns `Ok(0)` having delivered nothing — for any input, any fuel and any
handler.  This theorem evaluates the code at the failing configuration. -/
theorem c1_body_identity_eof_ignores_input (p : Parser) (hr : Bool)
    (dat : List Nat) (fuel : Nat) (hs : p.state = .BodyIdentityEOF)
    (hc : p.chunked = false) :
    parse fuel hr p dat = some (.ok p 0 []) := by
  by_cases hd : dat.length = 0 <;>
    simp [parse, hs, hc, runsByteLoop, finalize, hd]

/-- Witness for C1: the failing state is reached by parsing an HTTP/1.1
200 response with no declared length; feeding `abc` afterwards consumes
nothing and delivers nothing. -/
theorem c1_witness :
    pBodyEOF.state = .BodyIdentityEOF ∧ pBodyEOF.chunked = false ∧
    parse 1 false pBodyEOF (strBytes "abc") = some (.ok pBodyEOF 0 []) :=
  ⟨rfl, rfl, c1_body_identity_eof_ignores_input pBodyEOF false (strBytes "abc") 1 rfl rfl⟩

/-- Reachability of the C1 configuration (not part of the claim statement):
parsing the headers of a response with no declared length leaves the parser
in `BodyIdentityEOF` with the chunked flag clear. -/
theorem respNoLen_reaches_body_eof :
    parse 1 false (Parser.new .ParseResponse) respNoLen =
      some (.ok pBodyEOF 19
        [.message_begin, .version .HTTP_1_1, .status 200, .headers_complete]) := by
  decide

/-- C2.  The claim says every `parse` call terminates, in particular one
that ends mid-way through a chunk-size line.  The code disagrees: once the
input is exhausted inside the chunk-size grammar, the `'chunk: loop` keeps
re-running its inner `for` over an empty slice and never exits.  Fed the
headers of a chunked response (ending right at the start of the size line),
`parse` runs out of any amount of fuel. -/
theorem c2_chunk_loop_diverges (fuel : Nat) :
    parse fuel false (Parser.new .ParseResponse) teHeadersOnly = none := by
  exact Option.map_eq_none'.mpr
    (chunkOuter_exhausted_none teHeadersOnly
      ⟨.ParseResponse, .ChunkSize, .HeaderMatchingChunked, 0, false,
       some .HTTP_1_1, 1, 1, 0, false, true, true, none, 200⟩
      47
      [.message_begin, .version .HTTP_1_1, .status 200,
       .write (strBytes "Transfer-Encoding"), .header_field 17,
       .write (strBytes "chunked"), .header_value 7, .headers_complete]
      (by decide) (by decide) fuel)

/-- C3.  The claim says every parse error moves the parser to `Crashed`,
after which all calls return `OtherParseError`.  The code disagrees on the
`ReqLineAlmostDone` arm (and its response twin): a byte other than LF after
the request-line CR returns `InvalidRequestLine` without entering
`Crashed`, and the very next call happily finishes the message. -/
theorem c3_bad_line_end_not_crashed :
    parse 0 false (Parser.new .ParseRequest) reqBadLineEnd =
      some (.err pAfterBadLineEnd .InvalidRequestLine
        [.message_begin, .method .HttpGet, .write (strBytes "/"), .url 1,
         .version .HTTP_1_1]) ∧
    pAfterBadLineEnd.state ≠ .Crashed ∧
    parse 0 false pAfterBadLineEnd (strBytes "\n\r\n") =
      some (.ok pAfterBadLineEnd.reset 3 [.headers_complete, .message_complete]) := by
  refine ⟨by decide, by decide, by decide⟩

/-- C5 counterexample.  The claim says the whole chunked response of
scenario S6 is consumed (`consumed` equals the input length).  The code
returns `Ok(60)` for the 62-byte input: the `\r\n` after the terminating
`0\r\n` is left unconsumed. -/
theorem c5_counterexample :
    consumedOf (parse 50 false (Parser.new .ParseResponse) chunkedMsg) = some 60 ∧
    chunkedMsg.length = 62 := by
  refine ⟨by decide, by decide⟩

/-- C5 as amended: for scenario S6 the chunked flag is set after the
headers, the byte sink receives exactly `hello` between
`on_headers_complete` and `on_message_complete`, `on_message_complete`
fires right after the terminating `0\r\n`, and the call returns `Ok` with
`consumed` equal to the input length minus the trailing `\r\n`, which stays
unconsumed (the parser is left in `ChunkSizeAlmostDone`). -/
theorem c5_chunked_response_events :
    parse 50 false (Parser.new .ParseResponse) chunkedMsg =
      some (.ok pAfterChunked (chunkedMsg.length - 2) chunkedEvents) ∧
    pAfterChunked.chunked = true ∧
    pAfterChunked.state = .ChunkSizeAlmostDone ∧
    chunkedEvents =
      [.message_begin, .version .HTTP_1_1, .status 200,
       .write (strBytes "Transfer-Encoding"), .header_field 17,
       .write (strBytes "chunked"), .header_value 7,
       .headers_complete, .write (strBytes "hello"), .message_complete] := by
  refine ⟨by decide, rfl, rfl, rfl⟩

/-- C6.  The claim (and the spec's branching table) says a mismatching `H`
at token index 1 upgrades CONNECT to CHECKOUT and a mismatching `P` at
index 2 upgrades it to COPY, so `CHECKOUT` and `COPY` requests parse.  The
code's table instead tests indices 2 and 3 and maps both to `HttpCheckout`,
so both requests die with `InvalidMethod` (contradicting the code's own
`// or CHECKOUT, COPY` comment; `HttpCopy` is unreachable). -/
theorem c6_checkout_copy_rejected :
    errorOf (parse 0 false (Parser.new .ParseRequest) checkoutReq) =
      some .InvalidMethod ∧
    errorOf (parse 0 false (Parser.new .ParseRequest) copyReq) =
      some .InvalidMethod ∧
    eventsOf (parse 0 false (Parser.new .ParseRequest) checkoutReq) =
      [.message_begin] := by
  refine ⟨by decide, by decide, by decide⟩

/-- C10.  In `Either` mode the start state is `StartReqOrRes`, which the
byte-loop dispatch routes to `unimplemented!()`: any call with non-empty
input panics before a single callback fires, so no message can ever be
parsed in this mode. -/
theorem c10_parse_both_panics (p : Parser) (hr : Bool) (dat : List Nat)
    (fuel : Nat) (hs : p.state = .StartReqOrRes) (hne : dat ≠ []) :
    parse fuel hr p dat = some (.panicked []) := by
  obtain ⟨b, rest, rfl⟩ : ∃ b rest, dat = b :: rest := by
    cases dat with
    | nil => exact absurd rfl hne
    | cons b r => exact ⟨b, r, rfl⟩
  simp [parse, hs, runsByteLoop, byteLoop, stepByte]

/-- Witness for C10: a freshly constructed `Either`-mode parser panics on
the first byte of a GET request. -/
theorem c10_witness :
    (Parser.new .ParseBoth).state = .StartReqOrRes ∧
    parse 0 false (Parser.new .ParseBoth) (strBytes "GET") =
      some (.panicked []) :=
  ⟨rfl, c10_parse_both_panics (Parser.new .ParseBoth) false (strBytes "GET") 0 rfl
    (by decide)⟩

/-- C7 counterexample.  The claim says a method token that is a strict
prefix of a method name (e.g. `GE /`) is rejected on the SP.  The code
accepts it: `GE / HTTP/1.1` parses to completion and reports
`on_method(GET)`. -/
theorem c7_counterexample :
    parse 0 false (Parser.new .ParseRequest) geReq =
      some (.ok pAfterGe 17
        [.message_begin, .method .HttpGet, .write (strBytes "/"), .url 1,
         .version .HTTP_1_1, .headers_complete, .message_complete]) := by
  decide

/-- C7 as amended: on SP the `ReqMethod` arm reports the currently guessed
method and moves to URL parsing with no check that the token length equals
the method name's length — for every parser in that state, whatever the
index. -/
theorem c7_sp_accepts_any_token_length (p : Parser) (hr : Bool)
    (dat : List Nat) (read : Nat) (m : HttpMethod)
    (hs : p.state = .ReqMethod) (hm : p.method = some m) :
    stepByte hr dat read p 32 =
      .cont { p with state := .ReqUrl, index := 0 } [.method m] := by
  simp [stepByte, hs, hm]

/-- Witness for C7's amended claim: the guess `GET` with only two token
bytes read is reported as `GET` when the SP arrives. -/
theorem c7_witness :
    stepByte false [] 3 pMethodGe 32 =
      .cont { pMethodGe with state := .ReqUrl, index := 0 }
        [.method .HttpGet] :=
  c7_sp_accepts_any_token_length pMethodGe false [] 3 .HttpGet rfl rfl

/-- C4 counterexample.  The claim says that whenever `on_message_complete`
fires, the http version, method, status code, the flags and body-remaining
are reset to their initial-message values and the state returns to the
start state.  The code disagrees twice: after a plain completed request the
version, method and keep-alive flag keep their message values (initially
they are `None`, `None`, `false`); and after a chunked message no reset
happens at all — the state stays `ChunkSizeAlmostDone` and `chunked` stays
set. -/
theorem c4_counterexample :
    (parse 0 false (Parser.new .ParseRequest) basicReq =
      some (.ok pAfterBasic 18
        [.message_begin, .method .HttpGet, .write (strBytes "/"), .url 1,
         .version .HTTP_1_1, .headers_complete, .message_complete]) ∧
     pAfterBasic.http_version = some .HTTP_1_1 ∧
     pAfterBasic.method = some .HttpGet ∧
     pAfterBasic.keep_alive = true) ∧
    (finalParser (parse 50 false (Parser.new .ParseResponse) chunkedMsg) =
      some pAfterChunked ∧
     Event.message_complete ∈
       eventsOf (parse 50 false (Parser.new .ParseResponse) chunkedMsg) ∧
     pAfterChunked.state ≠ startState pAfterChunked.parser_type ∧
     pAfterChunked.chunked = true) := by
  refine ⟨⟨by decide, rfl, rfl, rfl⟩, ⟨by decide, by decide, by decide, rfl⟩⟩

/-- C4 as amended: at a header-path completion (here the `HeadersAlmostDone`
arm, with nothing forcing an early completion and no chunked framing)
`reset()` runs: it restores the start state of the parser's kind and clears
index, major, minor, body-remaining (to the unknown sentinel), `skip_body`
and the status code, while the http version, method and the
keep-alive/upgrade/chunked flags keep their last observed values and the
parser kind is unchanged. -/
theorem c4_reset_scope (p : Parser) (hr : Bool) (dat : List Nat) (read : Nat)
    (hs : p.state = .HeadersAlmostDone) (hhr : hr = false)
    (hu : p.upgrade = false) (hsb : p.skip_body = false)
    (hc : p.chunked = false) (hm : p.message_body_rest = 0) :
    stepByte hr dat read p 10 =
      .brk p.reset [.headers_complete, .message_complete] ∧
    p.reset.parser_type = p.parser_type ∧
    p.reset.state = startState p.parser_type ∧
    p.reset.index = 0 ∧ p.reset.major = 0 ∧ p.reset.minor = 0 ∧
    p.reset.message_body_rest = UINT_MAX ∧ p.reset.skip_body = false ∧
    p.reset.status_code = 0 ∧
    p.reset.http_version = p.http_version ∧ p.reset.method = p.method ∧
    p.reset.keep_alive = p.keep_alive ∧ p.reset.upgrade = p.upgrade ∧
    p.reset.chunked = p.chunked := by
  subst hhr
  refine ⟨?_, rfl, rfl, rfl, rfl, rfl, rfl, rfl, rfl, rfl, rfl, rfl, rfl, rfl⟩
  simp [stepByte, hs, hu, hsb, hc, hm]

/-- Witness for C4's amended claim at a concrete header-block end. -/
theorem c4_witness :
    stepByte false [] 5 pHeadersEnd 10 =
      .brk pHeadersEnd.reset [.headers_complete, .message_complete] :=
  (c4_reset_scope pHeadersEnd false [] 5 rfl rfl rfl rfl rfl rfl).1

/-- Helper: digits are token characters. -/
theorem isToken_digit {b : Nat} (h1 : 48 ≤ b) (h2 : b ≤ 57) :
    isToken b = true := by
  simp only [isToken, Bool.or_eq_true, Bool.and_eq_true, decide_eq_true_eq]
  omega

/-- Helper: the unchecked `byte - '0'` agrees with plain subtraction on
actual digits. -/
theorem usub_digit {b : Nat} (h1 : 48 ≤ b) (h2 : b ≤ 57) :
    usub b 48 = b - 48 := by
  have hM : (2 : Nat) ^ 64 = 18446744073709551616 := by norm_num
  simp only [usub, hM]
  omega

/-- Helper: running the header-value loop over a digit string multiplies
the accumulator by ten and adds each digit (with 64-bit wrapping). -/
theorem byteLoop_digits_run (hr : Bool) (dat : List Nat) :
    ∀ (ds : List Nat) (p : Parser) (read : Nat) (evs : List Event),
      p.state = .HeaderValue → p.hstate = .HeaderContentLength →
      (∀ b ∈ ds, 48 ≤ b ∧ b ≤ 57) →
      byteLoop hr dat p read evs ds =
        .exhausted
          { p with index := p.index + ds.length,
                   message_body_rest :=
                     ds.foldl (fun a b => wrap (a * 10 + (b - 48)))
                       p.message_body_rest }
          (read + ds.length) evs
  | [], p, read, evs, _, _, _ => by simp [byteLoop]
  | b :: ds, p, read, evs, hs, hh, hd => by
      obtain ⟨hb1, hb2⟩ := hd b (List.mem_cons_self b ds)
      have hb13 : ¬ (b = 13 ∨ b = 10) := by omega
      have hstep : stepByte hr dat (read + 1) p b =
          .cont { p with hstate := .HeaderContentLength,
                         message_body_rest := wrap (p.message_body_rest * 10 + (b - 48)),
                         index := p.index + 1 } [] := by
        simp [stepByte, hs, hh, hb13, isToken_digit hb1 hb2, hvalueUpdate,
          hb1, hb2]
      simp only [byteLoop, hstep, List.append_nil]
      rw [byteLoop_digits_run hr dat ds
            { p with hstate := .HeaderContentLength,
                     message_body_rest := wrap (p.message_body_rest * 10 + (b - 48)),
                     index := p.index + 1 }
            (read + 1) evs hs rfl
            (fun x hx => hd x (List.mem_cons_of_mem b hx))]
      simp only [List.length_cons, List.foldl_cons, ByteRes.exhausted.injEq,
        Parser.mk.injEq, hh, true_and, and_true]
      omega

/-- Helper: the wrapping fold over digits equals the exact decimal value
reduced modulo `2 ^ 64` once at the end. -/
theorem foldl_wrap_mod :
    ∀ (ds : List Nat) (x : Nat),
      ds.foldl (fun a b => wrap (a * 10 + (b - 48))) (x % 2 ^ 64) =
        (ds.foldl (fun a b => a * 10 + (b - 48)) x) % 2 ^ 64
  | [], x => rfl
  | d :: ds, x => by
      simp only [List.foldl_cons, wrap]
      have h : (x % 2 ^ 64 * 10 + (d - 48)) % 2 ^ 64 =
          (x * 10 + (d - 48)) % 2 ^ 64 :=
        ((Nat.mod_modEq x (2 ^ 64)).mul_right 10).add_right (d - 48)
      rw [h, ← foldl_wrap_mod ds (x * 10 + (d - 48))]
      simp [wrap]

/-- Helper: while the substate is `HeaderContentLength`, value bytes that
are digits or non-token characters keep the substate; only the running
length may change. -/
theorem byteLoop_cl_mixed_run (hr : Bool) (dat : List Nat) :
    ∀ (mid : List Nat) (p : Parser) (read : Nat) (evs : List Event)
      (rest : List Nat),
      p.state = .HeaderValue → p.hstate = .HeaderContentLength →
      (∀ b ∈ mid, b ≠ 13 ∧ b ≠ 10 ∧ ((48 ≤ b ∧ b ≤ 57) ∨ isToken b = false)) →
      ∃ mbr', byteLoop hr dat p read evs (mid ++ rest) =
        byteLoop hr dat
          { p with index := p.index + mid.length, message_body_rest := mbr' }
          (read + mid.length) evs rest
  | [], p, read, evs, rest, _, _, _ => ⟨p.message_body_rest, by simp⟩
  | b :: mid, p, read, evs, rest, hs, hh, hm => by
      obtain ⟨hb13, hb10, hbd⟩ := hm b (List.mem_cons_self b mid)
      have hbor : ¬ (b = 13 ∨ b = 10) := by
        rintro (h | h) <;> simp_all
      cases hbd with
      | inl hdig =>
          have hstep : stepByte hr dat (read + 1) p b =
              .cont { p with hstate := .HeaderContentLength,
                             message_body_rest := wrap (p.message_body_rest * 10 + (b - 48)),
                             index := p.index + 1 } [] := by
            simp [stepByte, hs, hh, hbor, isToken_digit hdig.1 hdig.2,
              hvalueUpdate, hdig.1, hdig.2]
          obtain ⟨mbr', hrec⟩ := byteLoop_cl_mixed_run hr dat mid
            { p with hstate := .HeaderContentLength,
                     message_body_rest := wrap (p.message_body_rest * 10 + (b - 48)),
                     index := p.index + 1 }
            (read + 1) evs rest hs rfl
            (fun x hx => hm x (List.mem_cons_of_mem b hx))
          refine ⟨mbr', ?_⟩
          simp only [List.cons_append, byteLoop, hstep, List.append_nil,
            List.append_eq]
          rw [hrec]
          have h1 : p.index + 1 + mid.length = p.index + (b :: mid).length := by
            simp only [List.length_cons]; omega
          have h2 : read + 1 + mid.length = read + (b :: mid).length := by
            simp only [List.length_cons]; omega
          simp only [← h1, ← h2, hh]
      | inr hnt =>
          have hstep : stepByte hr dat (read + 1) p b =
              .cont { p with index := p.index + 1 } [] := by
            simp [stepByte, hs, hh, hbor, hnt]
          obtain ⟨mbr', hrec⟩ := byteLoop_cl_mixed_run hr dat mid
            { p with index := p.index + 1 }
            (read + 1) evs rest hs hh
            (fun x hx => hm x (List.mem_cons_of_mem b hx))
          refine ⟨mbr', ?_⟩
          simp only [List.cons_append, byteLoop, hstep, List.append_nil,
            List.append_eq]
          rw [hrec]
          have h1 : p.index + 1 + mid.length = p.index + (b :: mid).length := by
            simp only [List.length_cons]; omega
          have h2 : read + 1 + mid.length = read + (b :: mid).length := by
            simp only [List.length_cons]; omega
          simp only [← h1, ← h2]

/-- Helper: once the substate has dropped to `HeaderGeneral`, further value
bytes only advance the token index. -/
theorem byteLoop_general_run (hr : Bool) (dat : List Nat) :
    ∀ (tl : List Nat) (p : Parser) (read : Nat) (evs : List Event),
      p.state = .HeaderValue → p.hstate = .HeaderGeneral →
      (∀ b ∈ tl, b ≠ 13 ∧ b ≠ 10) →
      byteLoop hr dat p read evs tl =
        .exhausted { p with index := p.index + tl.length }
          (read + tl.length) evs
  | [], p, read, evs, _, _, _ => by simp [byteLoop]
  | b :: tl, p, read, evs, hs, hh, ht => by
      obtain ⟨hb13, hb10⟩ := ht b (List.mem_cons_self b tl)
      have hbor : ¬ (b = 13 ∨ b = 10) := by
        rintro (h | h) <;> simp_all
      have hstep : stepByte hr dat (read + 1) p b =
          .cont { p with index := p.index + 1 } [] := by
        simp [stepByte, hs, hh, hbor]
      simp only [byteLoop, hstep, List.append_nil]
      rw [byteLoop_general_run hr dat tl { p with index := p.index + 1 }
        (read + 1) evs hs hh (fun x hx => ht x (List.mem_cons_of_mem b hx))]
      simp only [List.length_cons, ByteRes.exhausted.injEq, Parser.mk.injEq,
        true_and, and_true]
      omega

/-- Helper: a Content-Length value consisting solely of digits leaves
`message_body_rest` equal to the decimal value reduced modulo `2 ^ 64`. -/
theorem cl_value_digits (p : Parser) (hr : Bool) (dat : List Nat) (read : Nat)
    (evs : List Event) (d0 : Nat) (ds : List Nat)
    (hs : p.state = .HeaderValueDiscardWS) (hh : p.hstate = .HeaderContentLength)
    (h0 : 48 ≤ d0) (h1 : d0 ≤ 57) (hds : ∀ b ∈ ds, 48 ≤ b ∧ b ≤ 57) :
    byteLoop hr dat p read evs (d0 :: ds) =
      .exhausted
        { p with state := .HeaderValue, hstate := .HeaderContentLength,
                 index := p.index + 1 + ds.length,
                 message_body_rest := decVal (d0 :: ds) % 2 ^ 64 }
        (read + 1 + ds.length) evs := by
  have hno : ¬ (d0 = 32 ∨ d0 = 9) := by omega
  have hn13 : d0 ≠ 13 := by omega
  have hn10 : d0 ≠ 10 := by omega
  have hstep : stepByte hr dat (read + 1) p d0 =
      .cont { p with state := .HeaderValue, hstate := .HeaderContentLength,
                     message_body_rest := usub d0 48, index := p.index + 1 } [] := by
    simp [stepByte, hs, hh, hno, hn13, hn10, hvalueFirst]
  simp only [byteLoop, hstep, List.append_nil]
  rw [byteLoop_digits_run hr dat ds
        { p with state := .HeaderValue, hstate := .HeaderContentLength,
                 message_body_rest := usub d0 48, index := p.index + 1 }
        (read + 1) evs rfl rfl hds]
  rw [usub_digit h0 h1]
  have hlt : d0 - 48 < 2 ^ 64 := by
    have : (2 : Nat) ^ 64 = 18446744073709551616 := by norm_num
    omega
  rw [show d0 - 48 = (d0 - 48) % 2 ^ 64 from (Nat.mod_eq_of_lt hlt).symm,
    foldl_wrap_mod]
  rw [show decVal (d0 :: ds) = ds.foldl (fun a b => a * 10 + (b - 48)) (d0 - 48)
    from by simp [decVal]]

/-- Helper: a non-digit token character after the first value byte drops
the Content-Length accumulator to the unknown sentinel for good. -/
theorem cl_value_invalidated (p : Parser) (hr : Bool) (dat : List Nat)
    (read : Nat) (evs : List Event) (v0 c : Nat) (mid tl : List Nat)
    (hs : p.state = .HeaderValueDiscardWS) (hh : p.hstate = .HeaderContentLength)
    (hv0 : ¬ (v0 = 32 ∨ v0 = 9 ∨ v0 = 13 ∨ v0 = 10))
    (hmid : ∀ b ∈ mid, b ≠ 13 ∧ b ≠ 10 ∧ ((48 ≤ b ∧ b ≤ 57) ∨ isToken b = false))
    (hct : isToken c = true) (hcd : ¬ (48 ≤ c ∧ c ≤ 57))
    (htl : ∀ b ∈ tl, b ≠ 13 ∧ b ≠ 10) :
    byteLoop hr dat p read evs (v0 :: (mid ++ c :: tl)) =
      .exhausted
        { p with state := .HeaderValue, hstate := .HeaderGeneral,
                 index := p.index + 1 + mid.length + 1 + tl.length,
                 message_body_rest := UINT_MAX }
        (read + 1 + mid.length + 1 + tl.length) evs := by
  have hv32 : ¬ (v0 = 32 ∨ v0 = 9) := by tauto
  have hv13 : v0 ≠ 13 := by tauto
  have hv10 : v0 ≠ 10 := by tauto
  have hc13 : c ≠ 13 := by rintro rfl; simp [isToken] at hct
  have hc10 : c ≠ 10 := by rintro rfl; simp [isToken] at hct
  have hcor : ¬ (c = 13 ∨ c = 10) := by tauto
  have hstep0 : stepByte hr dat (read + 1) p v0 =
      .cont { p with state := .HeaderValue, hstate := .HeaderContentLength,
                     message_body_rest := usub v0 48, index := p.index + 1 } [] := by
    simp [stepByte, hs, hh, hv32, hv13, hv10, hvalueFirst]
  simp only [byteLoop, hstep0, List.append_nil]
  obtain ⟨mbr1, hrec⟩ := byteLoop_cl_mixed_run hr dat mid
    { p with state := .HeaderValue, hstate := .HeaderContentLength,
             message_body_rest := usub v0 48, index := p.index + 1 }
    (read + 1) evs (c :: tl) rfl rfl hmid
  rw [hrec]
  have hstepc : stepByte hr dat (read + 1 + mid.length + 1)
      { p with state := .HeaderValue, hstate := .HeaderContentLength,
               message_body_rest := mbr1, index := p.index + 1 + mid.length } c =
      .cont { p with state := .HeaderValue, hstate := .HeaderGeneral,
                     message_body_rest := UINT_MAX,
                     index := p.index + 1 + mid.length + 1 } [] := by
    simp [stepByte, hcor, hct, hvalueUpdate, hcd]
  simp only [byteLoop, hstepc, List.append_nil]
  rw [byteLoop_general_run hr dat tl
    { p with state := .HeaderValue, hstate := .HeaderGeneral,
             message_body_rest := UINT_MAX,
             index := p.index + 1 + mid.length + 1 }
    (read + 1 + mid.length + 1) evs rfl rfl htl]

/-- C8 as amended.  The claim says any non-digit byte of a Content-Length
value — including the first — invalidates the accumulated length to the
unknown sentinel.  The code checks only later token bytes: (a) the first
non-whitespace value byte is accumulated as `byte - '0'` with 64-bit
wraparound and no digit check; (b) an all-digit value leaves body-remaining
equal to the decimal number formed by multiplying by 10 and adding each
digit (mod `2 ^ 64`); (c) a non-digit token character after the first byte
invalidates the length to the unknown sentinel permanently (while non-token
bytes such as SP are not checked at all). -/
theorem c8_content_length_rules :
    (∀ (p : Parser) (hr : Bool) (dat : List Nat) (read b : Nat),
        p.state = .HeaderValueDiscardWS → p.hstate = .HeaderContentLength →
        ¬ (b = 32 ∨ b = 9 ∨ b = 13 ∨ b = 10) →
        stepByte hr dat read p b =
          .cont { p with state := .HeaderValue,
                         hstate := .HeaderContentLength,
                         message_body_rest := usub b 48,
                         index := p.index + 1 } []) ∧
    (∀ (p : Parser) (hr : Bool) (dat : List Nat) (read : Nat)
        (evs : List Event) (d0 : Nat) (ds : List Nat),
        p.state = .HeaderValueDiscardWS → p.hstate = .HeaderContentLength →
        48 ≤ d0 → d0 ≤ 57 → (∀ b ∈ ds, 48 ≤ b ∧ b ≤ 57) →
        byteLoop hr dat p read evs (d0 :: ds) =
          .exhausted
            { p with state := .HeaderValue, hstate := .HeaderContentLength,
                     index := p.index + 1 + ds.length,
                     message_body_rest := decVal (d0 :: ds) % 2 ^ 64 }
            (read + 1 + ds.length) evs) ∧
    (∀ (p : Parser) (hr : Bool) (dat : List Nat) (read : Nat)
        (evs : List Event) (v0 c : Nat) (mid tl : List Nat),
        p.state = .HeaderValueDiscardWS → p.hstate = .HeaderContentLength →
        ¬ (v0 = 32 ∨ v0 = 9 ∨ v0 = 13 ∨ v0 = 10) →
        (∀ b ∈ mid, b ≠ 13 ∧ b ≠ 10 ∧ ((48 ≤ b ∧ b ≤ 57) ∨ isToken b = false)) →
        isToken c = true → ¬ (48 ≤ c ∧ c ≤ 57) →
        (∀ b ∈ tl, b ≠ 13 ∧ b ≠ 10) →
        byteLoop hr dat p read evs (v0 :: (mid ++ c :: tl)) =
          .exhausted
            { p with state := .HeaderValue, hstate := .HeaderGeneral,
                     index := p.index + 1 + mid.length + 1 + tl.length,
                     message_body_rest := UINT_MAX }
            (read + 1 + mid.length + 1 + tl.length) evs) := by
  refine ⟨?_, ?_, ?_⟩
  · intro p hr dat read b hs hh hb
    have h1 : ¬ (b = 32 ∨ b = 9) := by tauto
    have h2 : b ≠ 13 := by tauto
    have h3 : b ≠ 10 := by tauto
    simp [stepByte, hs, hh, h1, h2, h3, hvalueFirst]
  · intro p hr dat read evs d0 ds hs hh h0 h1 hds
    exact cl_value_digits p hr dat read evs d0 ds hs hh h0 h1 hds
  · intro p hr dat read evs v0 c mid tl hs hh hv0 hmid hct hcd htl
    exact cl_value_invalidated p hr dat read evs v0 c mid tl hs hh hv0 hmid
      hct hcd htl

/-- C8 counterexample.  `Content-Length: x` does not invalidate the length
to "unknown": the parser records a body length of 72 (`'x' - '0'`) and
enters identity-body framing instead of completing the request. -/
theorem c8_counterexample :
    parse 5 false (Parser.new .ParseRequest) clxReq =
      some (.ok pAfterClx 37
        [.message_begin, .method .HttpPut, .write (strBytes "/"), .url 1,
         .version .HTTP_1_1, .write (strBytes "Content-Length"),
         .header_field 14, .write (strBytes "x"), .header_value 1,
         .headers_complete, .write []]) ∧
    pAfterClx.message_body_rest = 72 ∧
    pAfterClx.message_body_rest ≠ UINT_MAX ∧
    pAfterClx.state = .BodyIdentity ∧
    Event.message_complete ∉
      eventsOf (parse 5 false (Parser.new .ParseRequest) clxReq) := by
  refine ⟨by decide, rfl, by decide, rfl, by decide⟩

/-- Witness for C8's amended claim: the value `42` accumulates to 42; the
value `x!` ends at the unknown sentinel (and `x` alone contributed 72). -/
theorem c8_witness :
    stepByte false [] 1 pCLValueStart 120 =
      .cont { pCLValueStart with state := .HeaderValue,
                                 hstate := .HeaderContentLength,
                                 message_body_rest := 72, index := 1 } [] ∧
    byteLoop false [] pCLValueStart 0 [] (strBytes "42") =
      .exhausted { pCLValueStart with state := .HeaderValue,
                                      hstate := .HeaderContentLength,
                                      index := 2, message_body_rest := 42 }
        2 [] ∧
    byteLoop false [] pCLValueStart 0 [] (strBytes "x!") =
      .exhausted { pCLValueStart with state := .HeaderValue,
                                      hstate := .HeaderGeneral,
                                      index := 2, message_body_rest := UINT_MAX }
        2 [] :=
  ⟨c8_content_length_rules.1 pCLValueStart false [] 1 120 rfl rfl (by decide),
   c8_content_length_rules.2.1 pCLValueStart false [] 0 [] 52 [50] rfl rfl
     (by decide) (by decide) (by decide),
   c8_content_length_rules.2.2 pCLValueStart false [] 0 [] 120 33 [] [] rfl rfl
     (by decide) (by decide) (by decide) (by decide) (by decide)⟩

/-- Helper: a slice whose bounds delimit a known prefix of `dat.drop s`. -/
theorem slice_eq_of_drop (dat : List Nat) (s e : Nat) (l r : List Nat)
    (h : dat.drop s = l ++ r) (he : e - s = l.length) :
    slice dat s e = l := by
  unfold slice
  rw [h, he, List.take_left]

/-- Helper: dropping past a known prefix of `dat.drop s`. -/
theorem drop_add_of_drop (dat : List Nat) (s : Nat) (l r : List Nat)
    (h : dat.drop s = l ++ r) :
    dat.drop (s + l.length) = r := by
  have h1 : dat.drop (s + l.length) = (dat.drop s).drop l.length := by
    rw [List.drop_drop, Nat.add_comm]
  rw [h1, h, List.drop_left]

/-- Helper: running the byte loop over header-name bytes folds the name
recognizer and advances the token index, emitting nothing. -/
theorem name_run (hr : Bool) (dat : List Nat) :
    ∀ (nmr : List Nat) (p : Parser) (read : Nat) (evs : List Event)
      (rest : List Nat),
      p.state = .HeaderField → (∀ b ∈ nmr, isToken b = true ∧ b ≠ 58) →
      byteLoop hr dat p read evs (nmr ++ rest) =
        byteLoop hr dat
          { p with hstate := nameFold p.hstate p.index nmr,
                   index := p.index + nmr.length }
          (read + nmr.length) evs rest
  | [], p, read, evs, rest, _, _ => by simp [nameFold]
  | b :: nmr, p, read, evs, rest, hs, hnm => by
      obtain ⟨hbt, hb58⟩ := hnm b (List.mem_cons_self b nmr)
      have hb13 : b ≠ 13 := by rintro rfl; exact absurd hbt (by decide)
      have hb10 : b ≠ 10 := by rintro rfl; exact absurd hbt (by decide)
      have hstep : stepByte hr dat (read + 1) p b =
          .cont { p with hstate := nameUpdate p.hstate p.index (lower b),
                         index := p.index + 1 } [] := by
        simp [stepByte, hs, hb58, hb13, hb10, hbt]
      simp only [List.cons_append, byteLoop, hstep, List.append_nil,
        List.append_eq]
      rw [name_run hr dat nmr
        { p with hstate := nameUpdate p.hstate p.index (lower b),
                 index := p.index + 1 }
        (read + 1) evs rest hs
        (fun x hx => hnm x (List.mem_cons_of_mem b hx))]
      have h1 : p.index + 1 + nmr.length = p.index + (b :: nmr).length := by
        simp only [List.length_cons]; omega
      have h2 : read + 1 + nmr.length = read + (b :: nmr).length := by
        simp only [List.length_cons]; omega
      simp only [← h1, ← h2, nameFold]

/-- Helper: running the byte loop over header-value bytes (no CR/LF) folds
the value recognizer and advances the token index, emitting nothing. -/
theorem value_run (hr : Bool) (dat : List Nat) :
    ∀ (vr : List Nat) (p : Parser) (read : Nat) (evs : List Event)
      (rest : List Nat),
      p.state = .HeaderValue → (∀ b ∈ vr, b ≠ 13 ∧ b ≠ 10) →
      byteLoop hr dat p read evs (vr ++ rest) =
        byteLoop hr dat
          { p with hstate := (valueFold p.hstate p.index p.message_body_rest vr).1,
                   message_body_rest :=
                     (valueFold p.hstate p.index p.message_body_rest vr).2,
                   index := p.index + vr.length }
          (read + vr.length) evs rest
  | [], p, read, evs, rest, _, _ => by simp [valueFold]
  | b :: vr, p, read, evs, rest, hs, hv => by
      obtain ⟨hb13, hb10⟩ := hv b (List.mem_cons_self b vr)
      have hbor : ¬ (b = 13 ∨ b = 10) := by tauto
      by_cases hcond : p.hstate ≠ .HeaderGeneral ∧ isToken b = true
      · have hstep : stepByte hr dat (read + 1) p b =
            .cont { p with hstate := (hvalueUpdate p.hstate p.index p.message_body_rest b).1,
                           message_body_rest :=
                             (hvalueUpdate p.hstate p.index p.message_body_rest b).2,
                           index := p.index + 1 } [] := by
          simp [stepByte, hs, hbor, hcond.1, hcond.2]
        simp only [List.cons_append, byteLoop, hstep, List.append_nil,
          List.append_eq]
        rw [value_run hr dat vr
          { p with hstate := (hvalueUpdate p.hstate p.index p.message_body_rest b).1,
                   message_body_rest :=
                     (hvalueUpdate p.hstate p.index p.message_body_rest b).2,
                   index := p.index + 1 }
          (read + 1) evs rest hs
          (fun x hx => hv x (List.mem_cons_of_mem b hx))]
        have h1 : p.index + 1 + vr.length = p.index + (b :: vr).length := by
          simp only [List.length_cons]; omega
        have h2 : read + 1 + vr.length = read + (b :: vr).length := by
          simp only [List.length_cons]; omega
        have h3 : valueFold p.hstate p.index p.message_body_rest (b :: vr) =
            valueFold (hvalueUpdate p.hstate p.index p.message_body_rest b).1
              (p.index + 1)
              (hvalueUpdate p.hstate p.index p.message_body_rest b).2 vr := by
          rw [valueFold, if_pos hcond]
        simp only [← h1, ← h2, h3]
      · have hstep : stepByte hr dat (read + 1) p b =
            .cont { p with index := p.index + 1 } [] := by
          rcases Decidable.not_and_iff_or_not.mp hcond with h | h
          · have hgen : p.hstate = .HeaderGeneral := by
              by_contra hne; exact h hne
            simp [stepByte, hs, hbor, hgen]
          · have hnt : isToken b = false := by
              cases hb : isToken b
              · rfl
              · exact absurd hb h
            simp [stepByte, hs, hbor, hnt]
        simp only [List.cons_append, byteLoop, hstep, List.append_nil,
          List.append_eq]
        rw [value_run hr dat vr { p with index := p.index + 1 }
          (read + 1) evs rest hs
          (fun x hx => hv x (List.mem_cons_of_mem b hx))]
        have h1 : p.index + 1 + vr.length = p.index + (b :: vr).length := by
          simp only [List.length_cons]; omega
        have h2 : read + 1 + vr.length = read + (b :: vr).length := by
          simp only [List.length_cons]; omega
        have h3 : valueFold p.hstate p.index p.message_body_rest (b :: vr) =
            valueFold p.hstate (p.index + 1) p.message_body_rest vr := by
          rw [valueFold, if_neg hcond]
        simp only [← h1, ← h2, h3]

/-- Helper: the colon ending a header name emits the name bytes and the
`on_header_field` callback. -/
theorem colon_step (hr : Bool) (dat : List Nat) (q : Parser) (k r : Nat)
    (nm rest : List Nat) (hrk : r = k + nm.length + 1)
    (hqs : q.state = .HeaderField) (hqi : q.index = nm.length)
    (hd : dat.drop k = nm ++ rest) :
    stepByte hr dat r q 58 =
      .cont { q with state := .HeaderValueDiscardWS, index := 0 }
        [.write nm, .header_field nm.length] := by
  subst hrk
  simp [stepByte, hqs, hqi]
  rw [show (if 0 < k then k + nm.length + 1 - nm.length - 1 else 0) = k from
    by split <;> omega]
  exact slice_eq_of_drop dat k (k + nm.length) nm rest hd (by omega)

/-- Helper: the CR ending a header value applies the flag assignment and
emits the value bytes and the `on_header_value` callback. -/
theorem cr_step (hr : Bool) (dat : List Nat) (q : Parser) (k r : Nat)
    (v rest : List Nat) (hrk : r = k + v.length + 1)
    (hqs : q.state = .HeaderValue) (hqi : q.index = v.length)
    (hd : dat.drop k = v ++ rest) :
    stepByte hr dat r q 13 =
      .cont { (setFlags { q with state := .HeaderAlmostDone }) with index := 0 }
        [.write v, .header_value v.length] := by
  subst hrk
  simp [stepByte, hqs, hqi]
  rw [show (if 0 < k then k + v.length + 1 - v.length - 1 else 0) = k from
    by split <;> omega]
  exact slice_eq_of_drop dat k (k + v.length) v rest hd (by omega)

/-- Helper: `setFlags` only ever touches the three framing flags. -/
theorem setFlags_fields (x : Parser) :
    (setFlags x).parser_type = x.parser_type ∧ (setFlags x).state = x.state ∧
    (setFlags x).hstate = x.hstate ∧ (setFlags x).index = x.index ∧
    (setFlags x).skip_body = x.skip_body ∧
    (setFlags x).http_version = x.http_version ∧
    (setFlags x).major = x.major ∧ (setFlags x).minor = x.minor ∧
    (setFlags x).message_body_rest = x.message_body_rest ∧
    (setFlags x).method = x.method ∧
    (setFlags x).status_code = x.status_code := by
  cases hx : x.hstate <;> simp [setFlags, hx] <;> split_ifs <;> simp [hx]

/-- Helper: one full well-formed header line takes the parser from
`HeaderFieldStart` back to `HeaderFieldStart`, transforming it by
`lineResult` and emitting `lineEvents`. -/
theorem header_line_run (hr : Bool) (dat : List Nat)
    (nm v rest2 : List Nat) (p : Parser) (read : Nat) (evs : List Event)
    (hs : p.state = .HeaderFieldStart)
    (hnm : nm ≠ []) (hnmb : ∀ b ∈ nm, isToken b = true ∧ b ≠ 58)
    (hv : v ≠ []) (hvb : ∀ b ∈ v, b ≠ 13 ∧ b ≠ 10)
    (hv32 : v.getD 0 0 ≠ 32) (hv9 : v.getD 0 0 ≠ 9)
    (hdat : dat.drop read = nm ++ 58 :: 32 :: (v ++ 13 :: 10 :: rest2)) :
    byteLoop hr dat p read evs (nm ++ 58 :: 32 :: (v ++ 13 :: 10 :: rest2)) =
      byteLoop hr dat (lineResult p nm v)
        (read + (nm.length + v.length + 4)) (evs ++ lineEvents nm v) rest2 := by
  obtain ⟨b0, nmr, rfl⟩ := List.exists_cons_of_ne_nil hnm
  obtain ⟨v0, vr, rfl⟩ := List.exists_cons_of_ne_nil hv
  obtain ⟨hb0t, hb058⟩ := hnmb b0 (List.mem_cons_self b0 nmr)
  have hb013 : b0 ≠ 13 := by rintro rfl; exact absurd hb0t (by decide)
  have hb010 : b0 ≠ 10 := by rintro rfl; exact absurd hb0t (by decide)
  obtain ⟨hv013, hv010⟩ := hvb v0 (List.mem_cons_self v0 vr)
  have hv032 : v0 ≠ 32 := by simpa using hv32
  have hv09 : v0 ≠ 9 := by simpa using hv9
  have h1 : stepByte hr dat (read + 1) p b0 =
      .cont { p with state := .HeaderField, hstate := startHState (lower b0),
                     index := 1 } [] := by
    simp [stepByte, hs, hb013, hb010, hb0t]
  have h2 := name_run hr dat nmr
    { p with state := .HeaderField, hstate := startHState (lower b0),
             index := 1 }
    (read + 1) evs (58 :: 32 :: v0 :: (vr ++ 13 :: 10 :: rest2)) rfl
    (fun x hx => hnmb x (List.mem_cons_of_mem b0 hx))
  have h3 := colon_step hr dat
    { p with state := .HeaderField,
             hstate := nameFold (startHState (lower b0)) 1 nmr,
             index := 1 + nmr.length }
    read (read + 1 + nmr.length + 1) (b0 :: nmr)
    (58 :: 32 :: v0 :: (vr ++ 13 :: 10 :: rest2))
    (by simp only [List.length_cons]; omega) rfl
    (by simp only [List.length_cons]; omega) hdat
  have h4 : stepByte hr dat (read + 1 + nmr.length + 1 + 1)
      { p with state := .HeaderValueDiscardWS,
               hstate := nameFold (startHState (lower b0)) 1 nmr,
               index := 0 } 32 =
      .cont { p with state := .HeaderValueDiscardWS,
                     hstate := nameFold (startHState (lower b0)) 1 nmr,
                     index := 0 } [] := by
    simp [stepByte]
  have h5 : stepByte hr dat (read + 1 + nmr.length + 1 + 1 + 1)
      { p with state := .HeaderValueDiscardWS,
               hstate := nameFold (startHState (lower b0)) 1 nmr,
               index := 0 } v0 =
      .cont { p with state := .HeaderValue,
                     hstate := (hvalueFirst (nameFold (startHState (lower b0)) 1 nmr)
                       p.message_body_rest v0).1,
                     message_body_rest :=
                       (hvalueFirst (nameFold (startHState (lower b0)) 1 nmr)
                         p.message_body_rest v0).2,
                     index := 1 } [] := by
    simp [stepByte, hv032, hv09, hv013, hv010]
  have h6 := value_run hr dat vr
    { p with state := .HeaderValue,
             hstate := (hvalueFirst (nameFold (startHState (lower b0)) 1 nmr)
               p.message_body_rest v0).1,
             message_body_rest :=
               (hvalueFirst (nameFold (startHState (lower b0)) 1 nmr)
                 p.message_body_rest v0).2,
             index := 1 }
    (read + 1 + nmr.length + 1 + 1 + 1)
    (evs ++ [.write (b0 :: nmr), .header_field (b0 :: nmr).length])
    (13 :: 10 :: rest2) rfl
    (fun x hx => hvb x (List.mem_cons_of_mem v0 hx))
  have hd2 : dat.drop (read + (b0 :: nmr).length) =
      58 :: 32 :: (v0 :: vr ++ 13 :: 10 :: rest2) :=
    drop_add_of_drop dat read _ _ hdat
  have hd3 : dat.drop (read + (b0 :: nmr).length + 1 + 1) =
      (v0 :: vr) ++ 13 :: 10 :: rest2 := by
    have h58 : dat.drop (read + (b0 :: nmr).length + 1) =
        32 :: (v0 :: vr ++ 13 :: 10 :: rest2) := by
      have := drop_add_of_drop dat (read + (b0 :: nmr).length)
        [58] (32 :: (v0 :: vr ++ 13 :: 10 :: rest2)) (by simpa using hd2)
      simpa using this
    have := drop_add_of_drop dat (read + (b0 :: nmr).length + 1)
      [32] (v0 :: vr ++ 13 :: 10 :: rest2) (by simpa using h58)
    simpa using this
  have h7 := cr_step hr dat
    { p with state := .HeaderValue,
             hstate := (valueFold
               (hvalueFirst (nameFold (startHState (lower b0)) 1 nmr)
                 p.message_body_rest v0).1 1
               (hvalueFirst (nameFold (startHState (lower b0)) 1 nmr)
                 p.message_body_rest v0).2 vr).1,
             message_body_rest := (valueFold
               (hvalueFirst (nameFold (startHState (lower b0)) 1 nmr)
                 p.message_body_rest v0).1 1
               (hvalueFirst (nameFold (startHState (lower b0)) 1 nmr)
                 p.message_body_rest v0).2 vr).2,
             index := 1 + vr.length }
    (read + (b0 :: nmr).length + 1 + 1)
    (read + 1 + nmr.length + 1 + 1 + 1 + vr.length + 1) (v0 :: vr)
    (13 :: 10 :: rest2)
    (by simp only [List.length_cons]; omega) rfl
    (by simp only [List.length_cons]; omega) hd3
  have h8 : (setFlags
      { p with state := .HeaderAlmostDone,
               hstate := (valueFold
                 (hvalueFirst (nameFold (startHState (lower b0)) 1 nmr)
                   p.message_body_rest v0).1 1
                 (hvalueFirst (nameFold (startHState (lower b0)) 1 nmr)
                   p.message_body_rest v0).2 vr).1,
               message_body_rest := (valueFold
                 (hvalueFirst (nameFold (startHState (lower b0)) 1 nmr)
                   p.message_body_rest v0).1 1
                 (hvalueFirst (nameFold (startHState (lower b0)) 1 nmr)
                   p.message_body_rest v0).2 vr).2,
               index := 1 + vr.length }).state = .HeaderAlmostDone :=
    (setFlags_fields _).2.1
  have h9 : stepByte hr dat (read + 1 + nmr.length + 1 + 1 + 1 + vr.length + 1 + 1)
      { (setFlags
          { p with state := .HeaderAlmostDone,
                   hstate := (valueFold
                     (hvalueFirst (nameFold (startHState (lower b0)) 1 nmr)
                       p.message_body_rest v0).1 1
                     (hvalueFirst (nameFold (startHState (lower b0)) 1 nmr)
                       p.message_body_rest v0).2 vr).1,
                   message_body_rest := (valueFold
                     (hvalueFirst (nameFold (startHState (lower b0)) 1 nmr)
                       p.message_body_rest v0).1 1
                     (hvalueFirst (nameFold (startHState (lower b0)) 1 nmr)
                       p.message_body_rest v0).2 vr).2,
                   index := 1 + vr.length }) with
        index := 0, state := .HeaderAlmostDone } 10 =
      .cont { (setFlags
          { p with state := .HeaderAlmostDone,
                   hstate := (valueFold
                     (hvalueFirst (nameFold (startHState (lower b0)) 1 nmr)
                       p.message_body_rest v0).1 1
                     (hvalueFirst (nameFold (startHState (lower b0)) 1 nmr)
                       p.message_body_rest v0).2 vr).1,
                   message_body_rest := (valueFold
                     (hvalueFirst (nameFold (startHState (lower b0)) 1 nmr)
                       p.message_body_rest v0).1 1
                     (hvalueFirst (nameFold (startHState (lower b0)) 1 nmr)
                       p.message_body_rest v0).2 vr).2,
                   index := 1 + vr.length }) with
        index := 0, state := .HeaderFieldStart } [] := by
    simp [stepByte]
  simp only [List.cons_append, byteLoop, h1, List.append_nil, List.append_eq,
    h2, h3, h4, h5, h6, h7, h8, h9]
  congr 1
  · simp only [lineResult, headerValueEnd, headerNameState,
      show (v0 :: vr).length = 1 + vr.length from by
        simp only [List.length_cons]; omega]
  · simp only [List.length_cons]; omega
  · simp [lineEvents]

/-- Helper: a block of well-formed header lines starting at
`HeaderFieldStart` folds `lineResult` over the lines and emits the
concatenated line events. -/
theorem headers_run (hr : Bool) (dat : List Nat) :
    ∀ (hs : List (List Nat × List Nat)) (p : Parser) (read : Nat)
      (evs : List Event) (tail : List Nat),
      p.state = .HeaderFieldStart → (∀ nv ∈ hs, WFheader nv) →
      dat.drop read = hdrBytes hs ++ tail →
      byteLoop hr dat p read evs (hdrBytes hs ++ tail) =
        byteLoop hr dat (hdrsResult p hs) (read + (hdrBytes hs).length)
          (evs ++ hdrsEvents hs) tail
  | [], p, read, evs, tail, _, _, _ => by
      simp [hdrBytes, hdrsResult, hdrsEvents]
  | (nm, v) :: hs, p, read, evs, tail, hsst, hwf, hdat => by
      obtain ⟨hn1, hn2, hv1, hv2, hv3, hv4⟩ :=
        hwf (nm, v) (List.mem_cons_self (nm, v) hs)
      have hshape : hdrBytes ((nm, v) :: hs) ++ tail =
          nm ++ 58 :: 32 :: (v ++ 13 :: 10 :: (hdrBytes hs ++ tail)) := by
        simp [hdrBytes, List.append_assoc]
      rw [hshape] at hdat ⊢
      rw [header_line_run hr dat nm v (hdrBytes hs ++ tail) p read evs hsst
        hn1 hn2 hv1 hv2 hv3 hv4 hdat]
      have hdrop : dat.drop (read + (nm.length + v.length + 4)) =
          hdrBytes hs ++ tail := by
        have hre : dat.drop read =
            (nm ++ 58 :: 32 :: (v ++ [13, 10])) ++ (hdrBytes hs ++ tail) := by
          rw [hdat]; simp [List.append_assoc]
        have := drop_add_of_drop dat read _ _ hre
        convert this using 2
        simp only [List.length_append, List.length_cons, List.length_nil]
        omega
      rw [headers_run hr dat hs (lineResult p nm v)
        (read + (nm.length + v.length + 4)) (evs ++ lineEvents nm v) tail
        rfl (fun x hx => hwf x (List.mem_cons_of_mem (nm, v) hx)) hdrop]
      congr 1
      · simp only [hdrBytes, List.length_append, List.length_cons]
        omega
      · simp [hdrsEvents, List.append_assoc]

/-- Helper: a header line never changes the parser kind, skip flag,
version, method, status, or version digits. -/
theorem lineResult_fields (p : Parser) (nm v : List Nat) :
    (lineResult p nm v).parser_type = p.parser_type ∧
    (lineResult p nm v).skip_body = p.skip_body ∧
    (lineResult p nm v).http_version = p.http_version ∧
    (lineResult p nm v).method = p.method ∧
    (lineResult p nm v).major = p.major ∧
    (lineResult p nm v).minor = p.minor ∧
    (lineResult p nm v).status_code = p.status_code ∧
    (lineResult p nm v).state = .HeaderFieldStart := by
  obtain ⟨f1, f2, f3, f4, f5, f6, f7, f8, f9, f10, f11⟩ := setFlags_fields
    { p with hstate := (headerValueEnd (headerNameState nm) p.message_body_rest v).1,
             message_body_rest :=
               (headerValueEnd (headerNameState nm) p.message_body_rest v).2,
             index := v.length, state := .HeaderAlmostDone }
  simp [lineResult, f1, f5, f6, f7, f8, f10, f11]

/-- Helper: the same, over a whole header block. -/
theorem hdrsResult_fields :
    ∀ (hs : List (List Nat × List Nat)) (p : Parser),
      (hdrsResult p hs).parser_type = p.parser_type ∧
      (hdrsResult p hs).skip_body = p.skip_body ∧
      (hdrsResult p hs).http_version = p.http_version ∧
      (hdrsResult p hs).method = p.method ∧
      (hdrsResult p hs).major = p.major ∧
      (hdrsResult p hs).minor = p.minor ∧
      (hdrsResult p hs).status_code = p.status_code
  | [], p => by simp [hdrsResult]
  | (nm, v) :: hs, p => by
      obtain ⟨g1, g2, g3, g4, g5, g6, g7⟩ := hdrsResult_fields hs (lineResult p nm v)
      obtain ⟨f1, f2, f3, f4, f5, f6, f7, f8⟩ := lineResult_fields p nm v
      exact ⟨by rw [hdrsResult, g1, f1], by rw [hdrsResult, g2, f2],
        by rw [hdrsResult, g3, f3], by rw [hdrsResult, g4, f4],
        by rw [hdrsResult, g5, f5], by rw [hdrsResult, g6, f6],
        by rw [hdrsResult, g7, f7]⟩

/-- Helper: after a header block the parser is again at `HeaderFieldStart`. -/
theorem hdrsResult_state :
    ∀ (hs : List (List Nat × List Nat)) (p : Parser),
      p.state = .HeaderFieldStart → (hdrsResult p hs).state = .HeaderFieldStart
  | [], p, h => h
  | (nm, v) :: hs, p, _ => by
      rw [hdrsResult]
      exact hdrsResult_state hs (lineResult p nm v) (lineResult_fields p nm v).2.2.2.2.2.2.2

/-- Helper: the request line of `mkGetReq` runs to `HeaderFieldStart` with
the expected callbacks, whatever follows it. -/
theorem reqline_run (hr : Bool) (rest : List Nat) :
    byteLoop hr (reqLineBytes ++ rest) (Parser.new .ParseRequest) 0 []
      (reqLineBytes ++ rest) =
      byteLoop hr (reqLineBytes ++ rest) pHdrStart 16 reqLineEvents rest := by
  rfl

/-- Helper: the whole well-formed GET request parses in one call, producing
the folded parser (reset) and the canonical event trace, provided the
headers leave no body framing behind. -/
theorem getreq_parse (hdrs : List (List Nat × List Nat))
    (hwf : ∀ nv ∈ hdrs, WFheader nv)
    (hchunk : (hdrsResult pHdrStart hdrs).chunked = false)
    (hmbr : (hdrsResult pHdrStart hdrs).message_body_rest = UINT_MAX)
    (hupg : (hdrsResult pHdrStart hdrs).upgrade = false) :
    parse 0 false (Parser.new .ParseRequest) (mkGetReq hdrs) =
      some (.ok (hdrsResult pHdrStart hdrs).reset (mkGetReq hdrs).length
        (reqLineEvents ++ hdrsEvents hdrs ++
          [.headers_complete, .message_complete])) := by
  obtain ⟨g1, g2, g3, g4, g5, g6, g7⟩ := hdrsResult_fields hdrs pHdrStart
  have hstate : (hdrsResult pHdrStart hdrs).state = .HeaderFieldStart :=
    hdrsResult_state hdrs pHdrStart rfl
  have hassoc : mkGetReq hdrs = reqLineBytes ++ (hdrBytes hdrs ++ [13, 10]) := by
    simp [mkGetReq, List.append_assoc]
  have hdrop : (reqLineBytes ++ (hdrBytes hdrs ++ [13, 10])).drop 16 =
      hdrBytes hdrs ++ [13, 10] := by
    have h0 := drop_add_of_drop (reqLineBytes ++ (hdrBytes hdrs ++ [13, 10])) 0
      reqLineBytes (hdrBytes hdrs ++ [13, 10]) (by simp)
    convert h0 using 2
  have hlen : (mkGetReq hdrs).length = 16 + (hdrBytes hdrs).length + 1 + 1 := by
    simp only [mkGetReq, List.length_append, List.length_cons, List.length_nil]
    have : reqLineBytes.length = 16 := by decide
    omega
  -- the final CRLF
  have hcr : stepByte false (reqLineBytes ++ (hdrBytes hdrs ++ [13, 10]))
      (16 + (hdrBytes hdrs).length + 1) (hdrsResult pHdrStart hdrs) 13 =
      .cont { hdrsResult pHdrStart hdrs with state := .HeadersAlmostDone } [] := by
    simp [stepByte, hstate]
  have hlf : stepByte false (reqLineBytes ++ (hdrBytes hdrs ++ [13, 10]))
      (16 + (hdrBytes hdrs).length + 1 + 1)
      { hdrsResult pHdrStart hdrs with state := .HeadersAlmostDone } 10 =
      .brk ((hdrsResult pHdrStart hdrs).reset)
        [.headers_complete, .message_complete] := by
    have hskf : (hdrsResult pHdrStart hdrs).skip_body = false := by
      rw [g2]; rfl
    have hptf : (hdrsResult pHdrStart hdrs).parser_type = .ParseRequest := by
      rw [g1]; rfl
    simp [stepByte, Parser.reset, hupg, hchunk, hmbr, hskf, hptf, UINT_MAX]
  rw [hassoc]
  rw [parse]
  rw [if_neg (by decide), if_neg (by decide),
    if_neg (by
      simp only [List.length_append]
      have : reqLineBytes.length = 16 := by decide
      omega)]
  have hbl : byteLoop false (reqLineBytes ++ (hdrBytes hdrs ++ [13, 10]))
      (Parser.new .ParseRequest) 0 []
      (reqLineBytes ++ (hdrBytes hdrs ++ [13, 10])) =
      .broke ((hdrsResult pHdrStart hdrs).reset)
        (16 + (hdrBytes hdrs).length + 1 + 1)
        (reqLineEvents ++ hdrsEvents hdrs ++
          [.headers_complete, .message_complete]) := by
    rw [reqline_run]
    rw [headers_run false (reqLineBytes ++ (hdrBytes hdrs ++ [13, 10])) hdrs
      pHdrStart 16 reqLineEvents [13, 10] rfl hwf hdrop]
    simp only [byteLoop, hcr, hlf, List.append_nil]
  rw [hbl]
  have hchr : ((hdrsResult pHdrStart hdrs).reset).chunked = false := hchunk
  have hres : ((hdrsResult pHdrStart hdrs).reset).state = .StartReq := by
    show startState (hdrsResult pHdrStart hdrs).parser_type = .StartReq
    rw [g1]
    rfl
  have hfin : finalize (reqLineBytes ++ (hdrBytes hdrs ++ [13, 10]))
      ((hdrsResult pHdrStart hdrs).reset)
      (16 + (hdrBytes hdrs).length + 1 + 1)
      (reqLineEvents ++ (hdrsEvents hdrs ++
        [.headers_complete, .message_complete])) =
      .ok ((hdrsResult pHdrStart hdrs).reset)
        (16 + (hdrBytes hdrs).length + 1 + 1)
        (reqLineEvents ++ (hdrsEvents hdrs ++
          [.headers_complete, .message_complete])) := by
    simp [finalize, hres]
  rw [hassoc] at hlen
  have hrbl : runsByteLoop (Parser.new .ParseRequest).state = true := by decide
  simp [hrbl, hchr, hfin, hlen]

/-- Helper: a value-submatcher step either keeps its kind or drops to
`HeaderGeneral`. -/
theorem hvalueUpdate_kind (h : HeaderState) (i mbr b : Nat) :
    (hvalueUpdate h i mbr b).1 = h ∨ (hvalueUpdate h i mbr b).1 = .HeaderGeneral := by
  cases h <;> simp only [hvalueUpdate] <;>
    first | (split_ifs <;> simp) | simp

/-- Helper: the value fold either keeps its kind or ends in `HeaderGeneral`. -/
theorem valueFold_kind :
    ∀ (l : List Nat) (h : HeaderState) (i mbr : Nat),
      (valueFold h i mbr l).1 = h ∨ (valueFold h i mbr l).1 = .HeaderGeneral
  | [], h, i, mbr => Or.inl rfl
  | b :: l, h, i, mbr => by
      rw [valueFold]
      split_ifs with hc
      · show (valueFold (hvalueUpdate h i mbr b).1 (i + 1)
            (hvalueUpdate h i mbr b).2 l).1 = h ∨
          (valueFold (hvalueUpdate h i mbr b).1 (i + 1)
            (hvalueUpdate h i mbr b).2 l).1 = .HeaderGeneral
        rcases hvalueUpdate_kind h i mbr b with hk | hk <;> rw [hk]
        · exact valueFold_kind l h (i + 1) (hvalueUpdate h i mbr b).2
        · rcases valueFold_kind l .HeaderGeneral (i + 1) (hvalueUpdate h i mbr b).2
            with hg | hg
          · exact Or.inr hg
          · exact Or.inr hg
      · exact valueFold_kind l h (i + 1) mbr

/-- Helper: a token character does not lowercase to zero. -/
theorem lower_ne_zero {b : Nat} (ht : isToken b = true) : lower b ≠ 0 := by
  have hb : b ≠ 0 := by rintro rfl; exact absurd ht (by decide)
  simp only [lower]
  split_ifs <;> omega

/-- Helper: one `close`-submatcher step survives exactly on the letter of
`close` at the current index (for indices past the first byte). -/
theorem close_arm (i mbr b : Nat) (hi : 1 ≤ i) (ht : isToken b = true) :
    (hvalueUpdate .HeaderMatchingClose i mbr b).1 =
      (if lower b = closeBytes.getD i 0 then .HeaderMatchingClose
       else .HeaderGeneral) := by
  match i, hi with
  | 1, _ => simp [hvalueUpdate, closeBytes, strBytes]
  | 2, _ => simp [hvalueUpdate, closeBytes, strBytes]
  | 3, _ => simp [hvalueUpdate, closeBytes, strBytes]
  | 4, _ => simp [hvalueUpdate, closeBytes, strBytes]
  | (n + 5), _ =>
      have h0 : closeBytes.getD (n + 5) 0 = 0 := by
        have hl : closeBytes.length = 5 := by decide
        apply List.getD_eq_default
        omega
      rw [h0, if_neg (lower_ne_zero ht)]
      simp only [hvalueUpdate]
      split_ifs with h1 h2 h3 h4 <;> first | rfl | omega

/-- Helper: one `keep-alive`-submatcher step, analogously. -/
theorem ka_arm (i mbr b : Nat) (hi : 1 ≤ i) (ht : isToken b = true) :
    (hvalueUpdate .HeaderMatchingKeepAlive i mbr b).1 =
      (if lower b = kaBytes.getD i 0 then .HeaderMatchingKeepAlive
       else .HeaderGeneral) := by
  match i, hi with
  | 1, _ => simp [hvalueUpdate, kaBytes, strBytes]
  | 2, _ => simp [hvalueUpdate, kaBytes, strBytes]
  | 3, _ => simp [hvalueUpdate, kaBytes, strBytes]
  | 4, _ => simp [hvalueUpdate, kaBytes, strBytes]
  | 5, _ => simp [hvalueUpdate, kaBytes, strBytes]
  | 6, _ => simp [hvalueUpdate, kaBytes, strBytes]
  | 7, _ => simp [hvalueUpdate, kaBytes, strBytes]
  | 8, _ => simp [hvalueUpdate, kaBytes, strBytes]
  | 9, _ => simp [hvalueUpdate, kaBytes, strBytes]
  | (n + 10), _ =>
      have h0 : kaBytes.getD (n + 10) 0 = 0 := by
        have hl : kaBytes.length = 10 := by decide
        apply List.getD_eq_default
        omega
      rw [h0, if_neg (lower_ne_zero ht)]
      simp only [hvalueUpdate]
      split_ifs <;> first | rfl | omega

/-- Helper: once the value submatcher is `HeaderGeneral` it stays there. -/
theorem valueFold_general :
    ∀ (l : List Nat) (i mbr : Nat),
      (valueFold .HeaderGeneral i mbr l).1 = .HeaderGeneral
  | [], _, _ => rfl
  | b :: l, i, mbr => by
      rw [valueFold, if_neg (by simp)]
      exact valueFold_general l (i + 1) mbr

/-- Helper: splitting a positional word-match over a cons cell. -/
theorem matchWord_shift (w : List Nat) (b : Nat) (vr : List Nat) (i : Nat) :
    (∀ j < (b :: vr).length, isToken ((b :: vr).getD j 0) = true →
        lower ((b :: vr).getD j 0) = w.getD (i + j) 0) ↔
      ((isToken b = true → lower b = w.getD i 0) ∧
       ∀ j < vr.length, isToken (vr.getD j 0) = true →
         lower (vr.getD j 0) = w.getD (i + 1 + j) 0) := by
  constructor
  · intro H
    refine ⟨fun ht => ?_, fun j hj ht => ?_⟩
    · have h0 := H 0 (by simp) (by simpa using ht)
      simpa using h0
    · have h1 := H (j + 1) (by simp only [List.length_cons]; omega)
        (by simpa using ht)
      have he : i + (j + 1) = i + 1 + j := by omega
      simpa [he] using h1
  · rintro ⟨H0, H⟩ j hj ht
    cases j with
    | zero => simpa using H0 (by simpa using ht)
    | succ j =>
        have hj2 : j < vr.length := by simp only [List.length_cons] at hj; omega
        have h1 := H j hj2 (by simpa using ht)
        have he : i + (j + 1) = i + 1 + j := by omega
        simpa [he] using h1

/-- Helper: from index 1 on, the `close` submatcher survives a value tail
exactly when every token byte lowercases to the letter of `close` at its
position (non-token bytes are skipped unchecked). -/
theorem valueFold_close_iff :
    ∀ (vr : List Nat) (i mbr : Nat), 1 ≤ i →
      ((valueFold .HeaderMatchingClose i mbr vr).1 = .HeaderMatchingClose ↔
        ∀ j < vr.length, isToken (vr.getD j 0) = true →
          lower (vr.getD j 0) = closeBytes.getD (i + j) 0)
  | [], i, mbr, _ => by simp [valueFold]
  | b :: vr, i, mbr, hi => by
      rw [valueFold]
      by_cases ht : isToken b = true
      · rw [if_pos ⟨by simp, ht⟩]
        show (valueFold (hvalueUpdate .HeaderMatchingClose i mbr b).1 (i + 1)
              (hvalueUpdate .HeaderMatchingClose i mbr b).2 vr).1 =
            .HeaderMatchingClose ↔ _
        rw [close_arm i mbr b hi ht]
        by_cases hm : lower b = closeBytes.getD i 0
        · rw [if_pos hm,
            valueFold_close_iff vr (i + 1) _ (by omega), matchWord_shift]
          constructor
          · intro H
            exact ⟨fun _ => hm, H⟩
          · rintro ⟨_, H⟩
            exact H
        · rw [if_neg hm, matchWord_shift]
          constructor
          · intro hgen
            rw [valueFold_general] at hgen
            simp at hgen
          · rintro ⟨H0, _⟩
            exact absurd (H0 ht) hm
      · rw [if_neg (by tauto),
          valueFold_close_iff vr (i + 1) mbr (by omega), matchWord_shift]
        constructor
        · intro H
          exact ⟨fun ht2 => absurd ht2 ht, H⟩
        · rintro ⟨_, H⟩
          exact H

/-- Helper: the analogous survival property of the `keep-alive` submatcher. -/
theorem valueFold_ka_iff :
    ∀ (vr : List Nat) (i mbr : Nat), 1 ≤ i →
      ((valueFold .HeaderMatchingKeepAlive i mbr vr).1 =
          .HeaderMatchingKeepAlive ↔
        ∀ j < vr.length, isToken (vr.getD j 0) = true →
          lower (vr.getD j 0) = kaBytes.getD (i + j) 0)
  | [], i, mbr, _ => by simp [valueFold]
  | b :: vr, i, mbr, hi => by
      rw [valueFold]
      by_cases ht : isToken b = true
      · rw [if_pos ⟨by simp, ht⟩]
        show (valueFold (hvalueUpdate .HeaderMatchingKeepAlive i mbr b).1 (i + 1)
              (hvalueUpdate .HeaderMatchingKeepAlive i mbr b).2 vr).1 =
            .HeaderMatchingKeepAlive ↔ _
        rw [ka_arm i mbr b hi ht]
        by_cases hm : lower b = kaBytes.getD i 0
        · rw [if_pos hm,
            valueFold_ka_iff vr (i + 1) _ (by omega), matchWord_shift]
          constructor
          · intro H
            exact ⟨fun _ => hm, H⟩
          · rintro ⟨_, H⟩
            exact H
        · rw [if_neg hm, matchWord_shift]
          constructor
          · intro hgen
            rw [valueFold_general] at hgen
            simp at hgen
          · rintro ⟨H0, _⟩
            exact absurd (H0 ht) hm
      · rw [if_neg (by tauto),
          valueFold_ka_iff vr (i + 1) mbr (by omega), matchWord_shift]
        constructor
        · intro H
          exact ⟨fun ht2 => absurd ht2 ht, H⟩
        · rintro ⟨_, H⟩
          exact H

/-- Helper: once the name recognizer is `HeaderGeneral` it stays there. -/
theorem nameFold_general :
    ∀ (l : List Nat) (i : Nat), nameFold .HeaderGeneral i l = .HeaderGeneral
  | [], _ => rfl
  | b :: l, i => nameFold_general l (i + 1)

/-- Helper: a name step from `HeaderContentLength` keeps it or drops to
`HeaderGeneral`. -/
theorem nameUpdate_cl (i c : Nat) :
    nameUpdate .HeaderContentLength i c = .HeaderContentLength ∨
      nameUpdate .HeaderContentLength i c = .HeaderGeneral := by
  simp only [nameUpdate]
  split_ifs <;> simp

/-- Helper: the name recognizer never returns from `HeaderContentLength` to
`HeaderConnection`. -/
theorem nameFold_cl_ne :
    ∀ (l : List Nat) (i : Nat),
      nameFold .HeaderContentLength i l ≠ .HeaderConnection
  | [], _ => by simp [nameFold]
  | b :: l, i => by
      rw [nameFold]
      rcases nameUpdate_cl i (lower b) with h | h <;> rw [h]
      · exact nameFold_cl_ne l (i + 1)
      · rw [nameFold_general]
        simp

/-- Helper: one `connection`-name step at index `i ≥ 1` survives exactly on
the letter of `connection`, with the `t`-at-3 pivot to `Content-Length`. -/
theorem conn_arm (i c : Nat) (hi : 1 ≤ i) :
    nameUpdate .HeaderConnection i c =
      (if c = connBytes.getD i 0 ∧ i ≤ 9 then .HeaderConnection
       else if c = 116 ∧ i = 3 then .HeaderContentLength
       else .HeaderGeneral) := by
  match i, hi with
  | 1, _ => by_cases hc : c = 111 <;> simp [nameUpdate, connBytes, strBytes, hc]
  | 2, _ => by_cases hc : c = 110 <;> simp [nameUpdate, connBytes, strBytes, hc]
  | 3, _ => by_cases hc : c = 110 <;> simp [nameUpdate, connBytes, strBytes, hc]
  | 4, _ => by_cases hc : c = 101 <;> simp [nameUpdate, connBytes, strBytes, hc]
  | 5, _ => by_cases hc : c = 99 <;> simp [nameUpdate, connBytes, strBytes, hc]
  | 6, _ => by_cases hc : c = 116 <;> simp [nameUpdate, connBytes, strBytes, hc]
  | 7, _ => by_cases hc : c = 105 <;> simp [nameUpdate, connBytes, strBytes, hc]
  | 8, _ => by_cases hc : c = 111 <;> simp [nameUpdate, connBytes, strBytes, hc]
  | 9, _ => by_cases hc : c = 110 <;> simp [nameUpdate, connBytes, strBytes, hc]
  | (n + 10), _ =>
      have h1 : ¬(c = connBytes.getD (n + 10) 0 ∧ n + 10 ≤ 9) :=
        fun h => by omega
      have h2 : ¬(c = 116 ∧ n + 10 = 3) := fun h => by omega
      rw [if_neg h1, if_neg h2]
      simp only [nameUpdate]
      split_ifs <;> first | rfl | omega

/-- Helper: splitting a positional name-match over a cons cell (names check
every byte, with no token guard). -/
theorem nameShift (w : List Nat) (b : Nat) (vr : List Nat) (i : Nat) :
    (∀ j < (b :: vr).length, lower ((b :: vr).getD j 0) = w.getD (i + j) 0) ↔
      (lower b = w.getD i 0 ∧
       ∀ j < vr.length, lower (vr.getD j 0) = w.getD (i + 1 + j) 0) := by
  constructor
  · intro H
    refine ⟨by simpa using H 0 (by simp), fun j hj => ?_⟩
    have h1 := H (j + 1) (by simp only [List.length_cons]; omega)
    have he : i + (j + 1) = i + 1 + j := by omega
    simpa [he] using h1
  · rintro ⟨H0, H⟩ j hj
    cases j with
    | zero => simpa using H0
    | succ j =>
        have hj2 : j < vr.length := by simp only [List.length_cons] at hj; omega
        have h1 := H j hj2
        have he : i + (j + 1) = i + 1 + j := by omega
        simpa [he] using h1

/-- Helper: from index `1 ≤ i ≤ 10`, the `connection`-name recognizer
survives a name tail exactly when every byte lowercases to the letter of
`connection` at its position and the name does not run past the word. -/
theorem nameFold_conn_iff :
    ∀ (nmr : List Nat) (i : Nat), 1 ≤ i → i ≤ 10 →
      (nameFold .HeaderConnection i nmr = .HeaderConnection ↔
        (i + nmr.length ≤ 10 ∧
         ∀ j < nmr.length, lower (nmr.getD j 0) = connBytes.getD (i + j) 0))
  | [], i, hi, hle => by
      constructor
      · intro _
        refine ⟨by simpa using hle, ?_⟩
        intro j hj
        simp at hj
      · intro _
        rfl
  | b :: nmr, i, hi, hle => by
      rw [nameFold]
      show nameFold (nameUpdate .HeaderConnection i (lower b)) (i + 1) nmr =
          .HeaderConnection ↔ _
      rw [conn_arm i (lower b) hi]
      by_cases hm : lower b = connBytes.getD i 0 ∧ i ≤ 9
      · rw [if_pos hm,
          nameFold_conn_iff nmr (i + 1) (by omega) (by omega), nameShift]
        constructor
        · rintro ⟨hlen, H⟩
          exact ⟨by simp only [List.length_cons]; omega, hm.1, H⟩
        · rintro ⟨hlen, _, H⟩
          exact ⟨by simp only [List.length_cons] at hlen; omega, H⟩
      · rw [if_neg hm]
        split_ifs with hp
        · constructor
          · intro h
            exact absurd h (nameFold_cl_ne nmr (i + 1))
          · rintro ⟨hlen, H⟩
            have h0 := H 0 (by simp)
            simp only [List.getD_cons_zero, Nat.add_zero] at h0
            obtain ⟨hb, hi3⟩ := hp
            subst hi3
            have hc3 : connBytes.getD 3 0 = 110 := by decide
            omega
        · rw [nameFold_general]
          constructor
          · intro h
            simp at h
          · rintro ⟨hlen, H⟩
            have h0 := H 0 (by simp)
            simp only [List.getD_cons_zero, Nat.add_zero] at h0
            have hle9 : i ≤ 9 := by
              simp only [List.length_cons] at hlen
              omega
            exact absurd ⟨h0, hle9⟩ hm

/-- Helper: an `if` whose branches both lie in a two-element set lies in
that set. -/
theorem iteKind (P : Prop) [Decidable P] (t e a b : HeaderState)
    (ht : t = a ∨ t = b) (he : e = a ∨ e = b) :
    (if P then t else e) = a ∨ (if P then t else e) = b := by
  by_cases h : P
  · rw [if_pos h]
    exact ht
  · rw [if_neg h]
    exact he

/-- Helper: a name step from `HeaderTransferEncoding` keeps it or drops to
`HeaderGeneral`. -/
theorem nameUpdate_te (i c : Nat) :
    nameUpdate .HeaderTransferEncoding i c = .HeaderTransferEncoding ∨
      nameUpdate .HeaderTransferEncoding i c = .HeaderGeneral := by
  rw [show nameUpdate .HeaderTransferEncoding i c =
      (if c = 114 ∧ i = 1 then .HeaderTransferEncoding
       else if c = 97 ∧ i = 2 then .HeaderTransferEncoding
       else if c = 110 ∧ i = 3 then .HeaderTransferEncoding
       else if c = 115 ∧ i = 4 then .HeaderTransferEncoding
       else if c = 102 ∧ i = 5 then .HeaderTransferEncoding
       else if c = 101 ∧ i = 6 then .HeaderTransferEncoding
       else if c = 114 ∧ i = 7 then .HeaderTransferEncoding
       else if c = 45 ∧ i = 8 then .HeaderTransferEncoding
       else if c = 101 ∧ i = 9 then .HeaderTransferEncoding
       else if c = 110 ∧ i = 10 then .HeaderTransferEncoding
       else if c = 99 ∧ i = 11 then .HeaderTransferEncoding
       else if c = 111 ∧ i = 12 then .HeaderTransferEncoding
       else if c = 100 ∧ i = 13 then .HeaderTransferEncoding
       else if c = 105 ∧ i = 14 then .HeaderTransferEncoding
       else if c = 110 ∧ i = 15 then .HeaderTransferEncoding
       else if c = 103 ∧ i = 16 then .HeaderTransferEncoding
       else .HeaderGeneral) from rfl]
  repeat refine iteKind _ _ _ _ _ (Or.inl rfl) ?_
  exact Or.inr rfl

/-- Helper: the name recognizer never moves from `HeaderTransferEncoding`
to `HeaderConnection`. -/
theorem nameFold_te_ne :
    ∀ (l : List Nat) (i : Nat),
      nameFold .HeaderTransferEncoding i l ≠ .HeaderConnection
  | [], _ => by simp [nameFold]
  | b :: l, i => by
      rw [nameFold]
      rcases nameUpdate_te i (lower b) with h | h <;> rw [h]
      · exact nameFold_te_ne l (i + 1)
      · rw [nameFold_general]
        simp

/-- Helper: a byte lowercasing to a lower-case letter is a token byte. -/
theorem isToken_of_lower_letter {b c : Nat} (hc : lower b = c)
    (h1 : 97 ≤ c) (h2 : c ≤ 122) : isToken b = true := by
  simp only [lower] at hc
  unfold isToken
  split_ifs at hc <;>
    simp only [Bool.or_eq_true, Bool.and_eq_true, decide_eq_true_eq,
      beq_iff_eq] <;> omega

/-- Helper: the first ten positions of `connection` are lower-case
letters. -/
theorem connBytes_letter :
    ∀ i < 10, 97 ≤ connBytes.getD i 0 ∧ connBytes.getD i 0 ≤ 122 := by
  decide

/-- Helper: the header-name recognizer ends in `HeaderConnection` exactly
for the names of `connectionName`: every non-empty case-insensitive prefix
of `connection`. -/
theorem headerNameState_conn_iff (nm : List Nat) :
    headerNameState nm = .HeaderConnection ↔ connectionName nm := by
  cases nm with
  | nil => simp [headerNameState, connectionName]
  | cons b r =>
      rw [headerNameState]
      show nameFold (startHState (lower b)) 1 r = .HeaderConnection ↔ _
      by_cases hb : lower b = 99
      · rw [show startHState (lower b) = .HeaderConnection from by
          simp [startHState, hb]]
        rw [nameFold_conn_iff r 1 (by omega) (by omega)]
        unfold connectionName
        constructor
        · rintro ⟨hlen, H⟩
          refine ⟨by simp, by simp only [List.length_cons]; omega, ?_⟩
          intro i hi
          cases i with
          | zero =>
              simp only [List.getD_cons_zero]
              refine ⟨isToken_of_lower_letter hb (by omega) (by omega), ?_⟩
              rw [hb]
              decide
          | succ j =>
              have hj : j < r.length := by
                simp only [List.length_cons] at hi
                omega
              have hh := H j hj
              have hj9 : 1 + j < 10 := by omega
              have hcb := connBytes_letter (1 + j) hj9
              simp only [List.getD_cons_succ]
              refine ⟨isToken_of_lower_letter hh hcb.1 hcb.2, ?_⟩
              rw [hh]
              congr 1
              omega
        · rintro ⟨-, hlen, H⟩
          refine ⟨by simp only [List.length_cons] at hlen; omega, ?_⟩
          intro j hj
          have hh := (H (j + 1) (by simp only [List.length_cons]; omega)).2
          simp only [List.getD_cons_succ] at hh
          rw [hh]
          congr 1
          omega
      · have hne : nameFold (startHState (lower b)) 1 r ≠ .HeaderConnection := by
          rw [show startHState (lower b) =
              (if lower b = 116 then .HeaderTransferEncoding
               else if lower b = 117 then .HeaderUpgrade
               else .HeaderGeneral) from by simp [startHState, hb]]
          split_ifs with h1 h2
          · exact nameFold_te_ne r 1
          · cases r with
            | nil => simp [nameFold]
            | cons c r2 =>
                rw [nameFold]
                show nameFold (nameUpdate .HeaderUpgrade 1 (lower c)) 2 r2 ≠ _
                rw [show nameUpdate .HeaderUpgrade 1 (lower c) =
                    .HeaderGeneral from rfl, nameFold_general]
                simp
          · rw [nameFold_general]
            simp
        have hcn : ¬ connectionName (b :: r) := by
          rintro ⟨-, -, H⟩
          have h0 := (H 0 (by simp)).2
          simp only [List.getD_cons_zero] at h0
          rw [show connBytes.getD 0 0 = 99 from by decide] at h0
          exact hb h0
        constructor
        · intro h
          exact absurd h hne
        · intro h
          exact absurd h hcn

/-- Helper: a header line lowers `keep_alive` exactly when its name is a
`connection` name and its value passes the positional `close` match. -/
theorem lineSetsClose_iff (nm v : List Nat) :
    lineSetsClose nm v = true ↔ connectionName nm ∧ closeValue v := by
  rw [lineSetsClose, decide_eq_true_eq]
  cases v with
  | nil =>
      constructor
      · rintro ⟨-, hlen⟩
        simp at hlen
      · rintro ⟨-, hlen, -⟩
        simp at hlen
  | cons v0 vr =>
      show (valueFold (hvalueFirst (headerNameState nm) 0 v0).1 1
          (hvalueFirst (headerNameState nm) 0 v0).2 vr).1 = .HeaderMatchingClose
          ∧ (v0 :: vr).length = 5 ↔ _
      by_cases hconn : headerNameState nm = .HeaderConnection
      · rw [hconn]
        have hcn : connectionName nm := (headerNameState_conn_iff nm).1 hconn
        by_cases hc : lower v0 = 99
        · rw [show hvalueFirst .HeaderConnection 0 v0 = (.HeaderMatchingClose, 0)
            from by simp [hvalueFirst, hc]]
          show (valueFold .HeaderMatchingClose 1 0 vr).1 = .HeaderMatchingClose
              ∧ (v0 :: vr).length = 5 ↔ _
          rw [valueFold_close_iff vr 1 0 (by omega)]
          constructor
          · rintro ⟨H, hlen⟩
            refine ⟨hcn, hlen, by simpa using hc, ?_⟩
            intro i h1 h5 htok
            obtain ⟨j, rfl⟩ : ∃ j, i = j + 1 := ⟨i - 1, by omega⟩
            simp only [List.getD_cons_succ] at htok ⊢
            have hj : j < vr.length := by
              simp only [List.length_cons] at hlen
              omega
            rw [H j hj htok]
            congr 1
            omega
          · rintro ⟨-, hlen, -, H⟩
            refine ⟨?_, hlen⟩
            intro j hj htok
            have h5 : j + 1 < 5 := by
              simp only [List.length_cons] at hlen
              omega
            have hstep := H (j + 1) (by omega) h5 (by simpa using htok)
            simp only [List.getD_cons_succ] at hstep
            rw [hstep]
            congr 1
            omega
        · have hfk : (hvalueFirst .HeaderConnection 0 v0).1 ≠
              .HeaderMatchingClose := by
            simp only [hvalueFirst]
            split_ifs <;> simp_all
          have hne : (valueFold (hvalueFirst .HeaderConnection 0 v0).1 1
              (hvalueFirst .HeaderConnection 0 v0).2 vr).1 ≠
              .HeaderMatchingClose := by
            rcases valueFold_kind vr (hvalueFirst .HeaderConnection 0 v0).1 1
                (hvalueFirst .HeaderConnection 0 v0).2 with hk | hk <;> rw [hk]
            · exact hfk
            · simp
          constructor
          · rintro ⟨h, -⟩
            exact absurd h hne
          · rintro ⟨-, -, h0, -⟩
            simp only [List.getD_cons_zero] at h0
            exact absurd h0 hc
      · have hcn : ¬ connectionName nm :=
          fun h => hconn ((headerNameState_conn_iff nm).2 h)
        have hfk : (hvalueFirst (headerNameState nm) 0 v0).1 ≠
            .HeaderMatchingClose := by
          cases hh : headerNameState nm
          case HeaderConnection => exact absurd hh hconn
          all_goals simp only [hvalueFirst]
          all_goals first
          | (split_ifs <;> simp)
          | simp
        have hne : (valueFold (hvalueFirst (headerNameState nm) 0 v0).1 1
            (hvalueFirst (headerNameState nm) 0 v0).2 vr).1 ≠
            .HeaderMatchingClose := by
          rcases valueFold_kind vr (hvalueFirst (headerNameState nm) 0 v0).1 1
              (hvalueFirst (headerNameState nm) 0 v0).2 with hk | hk <;> rw [hk]
          · exact hfk
          · simp
        constructor
        · rintro ⟨h, -⟩
          exact absurd h hne
        · rintro ⟨h, -⟩
          exact absurd h hcn

/-- Helper: a header line raises `keep_alive` exactly when its name is a
`connection` name and its value passes the positional `keep-alive` match. -/
theorem lineSetsKeepAlive_iff (nm v : List Nat) :
    lineSetsKeepAlive nm v = true ↔ connectionName nm ∧ keepAliveValue v := by
  rw [lineSetsKeepAlive, decide_eq_true_eq]
  cases v with
  | nil =>
      constructor
      · rintro ⟨-, hlen⟩
        simp at hlen
      · rintro ⟨-, hlen, -⟩
        simp at hlen
  | cons v0 vr =>
      show (valueFold (hvalueFirst (headerNameState nm) 0 v0).1 1
          (hvalueFirst (headerNameState nm) 0 v0).2 vr).1 =
          .HeaderMatchingKeepAlive
          ∧ (v0 :: vr).length = 10 ↔ _
      by_cases hconn : headerNameState nm = .HeaderConnection
      · rw [hconn]
        have hcn : connectionName nm := (headerNameState_conn_iff nm).1 hconn
        by_cases hc : lower v0 = 107
        · rw [show hvalueFirst .HeaderConnection 0 v0 =
              (.HeaderMatchingKeepAlive, 0)
            from by simp [hvalueFirst, hc]]
          show (valueFold .HeaderMatchingKeepAlive 1 0 vr).1 =
              .HeaderMatchingKeepAlive
              ∧ (v0 :: vr).length = 10 ↔ _
          rw [valueFold_ka_iff vr 1 0 (by omega)]
          constructor
          · rintro ⟨H, hlen⟩
            refine ⟨hcn, hlen, by simpa using hc, ?_⟩
            intro i h1 h10 htok
            obtain ⟨j, rfl⟩ : ∃ j, i = j + 1 := ⟨i - 1, by omega⟩
            simp only [List.getD_cons_succ] at htok ⊢
            have hj : j < vr.length := by
              simp only [List.length_cons] at hlen
              omega
            rw [H j hj htok]
            congr 1
            omega
          · rintro ⟨-, hlen, -, H⟩
            refine ⟨?_, hlen⟩
            intro j hj htok
            have h10 : j + 1 < 10 := by
              simp only [List.length_cons] at hlen
              omega
            have hstep := H (j + 1) (by omega) h10 (by simpa using htok)
            simp only [List.getD_cons_succ] at hstep
            rw [hstep]
            congr 1
            omega
        · have hfk : (hvalueFirst .HeaderConnection 0 v0).1 ≠
              .HeaderMatchingKeepAlive := by
            simp only [hvalueFirst]
            split_ifs <;> simp_all
          have hne : (valueFold (hvalueFirst .HeaderConnection 0 v0).1 1
              (hvalueFirst .HeaderConnection 0 v0).2 vr).1 ≠
              .HeaderMatchingKeepAlive := by
            rcases valueFold_kind vr (hvalueFirst .HeaderConnection 0 v0).1 1
                (hvalueFirst .HeaderConnection 0 v0).2 with hk | hk <;> rw [hk]
            · exact hfk
            · simp
          constructor
          · rintro ⟨h, -⟩
            exact absurd h hne
          · rintro ⟨-, -, h0, -⟩
            simp only [List.getD_cons_zero] at h0
            exact absurd h0 hc
      · have hcn : ¬ connectionName nm :=
          fun h => hconn ((headerNameState_conn_iff nm).2 h)
        have hfk : (hvalueFirst (headerNameState nm) 0 v0).1 ≠
            .HeaderMatchingKeepAlive := by
          cases hh : headerNameState nm
          case HeaderConnection => exact absurd hh hconn
          all_goals simp only [hvalueFirst]
          all_goals first
          | (split_ifs <;> simp)
          | simp
        have hne : (valueFold (hvalueFirst (headerNameState nm) 0 v0).1 1
            (hvalueFirst (headerNameState nm) 0 v0).2 vr).1 ≠
            .HeaderMatchingKeepAlive := by
          rcases valueFold_kind vr (hvalueFirst (headerNameState nm) 0 v0).1 1
              (hvalueFirst (headerNameState nm) 0 v0).2 with hk | hk <;> rw [hk]
          · exact hfk
          · simp
        constructor
        · rintro ⟨h, -⟩
          exact absurd h hne
        · rintro ⟨h, -⟩
          exact absurd h hcn

/-- Helper: the substate component of a value step does not depend on the
incoming `message_body_rest`. -/
theorem hvalueUpdate_fst_mbr (h : HeaderState) (i mbr mbr2 b : Nat) :
    (hvalueUpdate h i mbr b).1 = (hvalueUpdate h i mbr2 b).1 := by
  cases h <;> simp only [hvalueUpdate] <;> first | (split_ifs <;> rfl) | rfl

/-- Helper: the substate component of the value fold does not depend on the
incoming `message_body_rest`. -/
theorem valueFold_fst_mbr :
    ∀ (l : List Nat) (h : HeaderState) (i mbr mbr2 : Nat),
      (valueFold h i mbr l).1 = (valueFold h i mbr2 l).1
  | [], _, _, _, _ => rfl
  | b :: l, h, i, mbr, mbr2 => by
      rw [valueFold, valueFold]
      split_ifs with hc
      · show (valueFold (hvalueUpdate h i mbr b).1 (i + 1)
            (hvalueUpdate h i mbr b).2 l).1 =
          (valueFold (hvalueUpdate h i mbr2 b).1 (i + 1)
            (hvalueUpdate h i mbr2 b).2 l).1
        rw [hvalueUpdate_fst_mbr h i mbr mbr2 b]
        exact valueFold_fst_mbr l _ (i + 1) _ _
      · exact valueFold_fst_mbr l h (i + 1) mbr mbr2

/-- Helper: the substate at the end of a header value does not depend on
the incoming `message_body_rest`. -/
theorem headerValueEnd_fst_mbr (h : HeaderState) (mbr mbr2 : Nat)
    (v : List Nat) :
    (headerValueEnd h mbr v).1 = (headerValueEnd h mbr2 v).1 := by
  cases v with
  | nil => rfl
  | cons b r =>
      show (valueFold (hvalueFirst h mbr b).1 1 (hvalueFirst h mbr b).2 r).1 =
        (valueFold (hvalueFirst h mbr2 b).1 1 (hvalueFirst h mbr2 b).2 r).1
      have hf : (hvalueFirst h mbr b).1 = (hvalueFirst h mbr2 b).1 := by
        cases h <;> simp only [hvalueFirst] <;> first | (split_ifs <;> rfl) | rfl
      rw [hf]
      exact valueFold_fst_mbr r _ 1 _ _

/-- Helper: the `keep_alive` output of the end-of-value flag assignment. -/
theorem setFlags_keep_alive (x : Parser) :
    (setFlags x).keep_alive =
      (if x.hstate = .HeaderMatchingClose ∧ x.index = 5 then false
       else if x.hstate = .HeaderMatchingKeepAlive ∧ x.index = 10 then true
       else x.keep_alive) := by
  cases hx : x.hstate <;> simp [setFlags, hx] <;> split_ifs <;> simp_all

/-- Helper: the effect of one header line on `keep_alive` is `kaStep`. -/
theorem lineResult_keep_alive (p : Parser) (nm v : List Nat) :
    (lineResult p nm v).keep_alive = kaStep p.keep_alive (nm, v) := by
  have hmbr : (headerValueEnd (headerNameState nm) p.message_body_rest v).1 =
      (headerValueEnd (headerNameState nm) 0 v).1 :=
    headerValueEnd_fst_mbr _ _ _ v
  show (setFlags { p with
      hstate := (headerValueEnd (headerNameState nm) p.message_body_rest v).1,
      message_body_rest :=
        (headerValueEnd (headerNameState nm) p.message_body_rest v).2,
      index := v.length, state := .HeaderAlmostDone }).keep_alive =
    kaStep p.keep_alive (nm, v)
  rw [setFlags_keep_alive]
  simp only [kaStep, lineSetsClose, lineSetsKeepAlive, hmbr]
  split_ifs <;> simp_all

/-- Helper: the cumulative effect of the header lines on `keep_alive` is
the `kaStep` fold. -/
theorem hdrsResult_keep_alive :
    ∀ (hs : List (List Nat × List Nat)) (p : Parser),
      (hdrsResult p hs).keep_alive = hs.foldl kaStep p.keep_alive
  | [], _ => rfl
  | (nm, v) :: hs, p => by
      rw [hdrsResult, List.foldl_cons,
        hdrsResult_keep_alive hs (lineResult p nm v), lineResult_keep_alive]

/-- C9 counterexample: the request `GET / HTTP/1.1\r\nConnection: cl se\r\n\r\n`
completes (no error, `on_message_complete` fires, all 37 bytes consumed)
with `keep_alive = false`, although its only header value `cl se` is not
the word `close`: the positional matcher skips the non-token space byte at
value position 2 unchecked, so the spec's exact-value reading of
`Connection: close` is refuted. -/
theorem c9_counterexample :
    errorOf (parse 0 false (Parser.new .ParseRequest) clseReq) = none ∧
    consumedOf (parse 0 false (Parser.new .ParseRequest) clseReq) =
      some clseReq.length ∧
    Event.message_complete ∈
      eventsOf (parse 0 false (Parser.new .ParseRequest) clseReq) ∧
    (finalParser (parse 0 false (Parser.new .ParseRequest) clseReq)).map
      Parser.keep_alive = some false ∧
    strBytes "cl se" ≠ strBytes "close" := by
  decide

/-- C9: for a `GET / HTTP/1.1` request assembled from any list of
well-formed header lines whose headers leave the framing flags untouched
(no chunked encoding, no content length, no upgrade), `parse` completes the
message in one call, and the final `keep_alive` is the fold of the per-line
rule over the initial `true` (HTTP/1.1 default); a line lowers the flag iff
its name is a non-empty case-insensitive prefix of `connection` and its
value passes the positional 5-byte `close` match, and raises it iff its
name is such a prefix and its value passes the positional 10-byte
`keep-alive` match — not the spec's exact-name, exact-value rule. -/
theorem c9_keep_alive_rule (hdrs : List (List Nat × List Nat))
    (hwf : ∀ nv ∈ hdrs, WFheader nv)
    (hchunk : (hdrsResult pHdrStart hdrs).chunked = false)
    (hmbr : (hdrsResult pHdrStart hdrs).message_body_rest = UINT_MAX)
    (hupg : (hdrsResult pHdrStart hdrs).upgrade = false) :
    parse 0 false (Parser.new .ParseRequest) (mkGetReq hdrs) =
      some (.ok (hdrsResult pHdrStart hdrs).reset (mkGetReq hdrs).length
        (reqLineEvents ++ hdrsEvents hdrs ++
          [.headers_complete, .message_complete])) ∧
    (hdrsResult pHdrStart hdrs).reset.keep_alive = hdrs.foldl kaStep true ∧
    (∀ nm v, lineSetsClose nm v = true ↔ connectionName nm ∧ closeValue v) ∧
    (∀ nm v, lineSetsKeepAlive nm v = true ↔
      connectionName nm ∧ keepAliveValue v) := by
  refine ⟨getreq_parse hdrs hwf hchunk hmbr hupg, ?_, lineSetsClose_iff,
    lineSetsKeepAlive_iff⟩
  show (hdrsResult pHdrStart hdrs).keep_alive = _
  rw [hdrsResult_keep_alive hdrs pHdrStart]
  rfl

/-- Witness for the C9 rule at the single header `Connection: close`. -/
theorem c9_keep_alive_rule_witness :
    (∀ nv ∈ [(strBytes "Connection", strBytes "close")], WFheader nv) ∧
    (parse 0 false (Parser.new .ParseRequest)
        (mkGetReq [(strBytes "Connection", strBytes "close")]) =
      some (.ok
        (hdrsResult pHdrStart
          [(strBytes "Connection", strBytes "close")]).reset
        (mkGetReq [(strBytes "Connection", strBytes "close")]).length
        (reqLineEvents ++
          hdrsEvents [(strBytes "Connection", strBytes "close")] ++
          [.headers_complete, .message_complete])) ∧
     (hdrsResult pHdrStart
        [(strBytes "Connection", strBytes "close")]).reset.keep_alive =
       [(strBytes "Connection", strBytes "close")].foldl kaStep true ∧
     (∀ nm v, lineSetsClose nm v = true ↔ connectionName nm ∧ closeValue v) ∧
     (∀ nm v, lineSetsKeepAlive nm v = true ↔
       connectionName nm ∧ keepAliveValue v)) :=
  ⟨by decide,
    c9_keep_alive_rule [(strBytes "Connection", strBytes "close")]
      (by decide) (by decide) (by decide) (by decide)⟩

end Bee
